import Mathlib

/-!
Shallow embedding of the SmartGridS balancing engine
(`src/Smartgridsimulator.cpp`, namespace `SmartGrid`).

Modelling conventions:
* C++ `float` quantities (power output, demand) are modelled as exact
  rationals `ℚ`; the program only adds, subtracts and compares them, and no
  claim is about rounding.
* `std::map<std::string, Breaker>` is modelled as an association list
  `List (String × Bool)` holding each breaker's tripped flag;
  `operator[]` on an absent key default-constructs an untripped breaker,
  which is reflected by `getD false` on lookups and by insertion on writes.
* `std::set<std::string>` (the fault set) is modelled as a sorted duplicate
  free `List String`; `resolveManualFault` indexes into its iteration order.
* `std::sort` guarantees only that its output is a permutation of its input
  that is sorted with respect to the comparator; the relative order of
  equal-priority loads is unspecified (it is not `std::stable_sort`).  The
  cycle procedure `simulateWith` is therefore parameterised by the index
  order each branch walks, together with validity predicates
  (`ValidShedOrder`, `ValidRestoreOrder`) expressing exactly the `std::sort`
  contract.  `runCycle` instantiates the orders with `List.insertionSort`,
  one deterministic refinement among the permitted ones.
* `SolarSource::simulate` overwrites its output with a fresh draw from the
  ambient random generator; the draws are modelled by a parameter
  `gen : Nat → ℚ` giving the fresh value for the source at each position.
* Out-of-bounds accesses (`loads[index]`, `std::advance` past the end) are
  undefined behaviour in the C++ and are not modelled; every theorem about
  an indexed operation carries the corresponding in-range hypothesis.
-/

namespace SmartGrid

attribute [local semireducible] Rat.add Rat.sub


/-- A power source (`PowerSource` / `SolarSource`): `solar = true` marks the
derived `SolarSource`, whose output is re-sampled each cycle. -/
structure Source where
  name : String
  output : ℚ
  renewable : Bool
  connected : Bool
  solar : Bool
deriving DecidableEq

/-- A load (`class Load`): demand, priority and connectivity flag. -/
structure Load where
  name : String
  demand : ℚ
  connected : Bool
  priority : Int
deriving DecidableEq

/-- Tripped-state view of the breaker registry `std::map<std::string, Breaker>`. -/
abbrev Breakers := List (String × Bool)

/-- Lookup of a breaker entry by name (first matching key, keys are unique in
any state the program builds). -/
def findBreaker : Breakers → String → Option Bool
  | [], _ => none
  | (m, t) :: rest, n => if m = n then some t else findBreaker rest n

/-- `breakers[name].isTripped()`: an absent entry is default-constructed
untripped by `operator[]`. -/
def isTrippedB (brs : Breakers) (n : String) : Bool :=
  (findBreaker brs n).getD false

/-- Write a breaker's tripped flag (`operator[]` followed by `trip`/`reset`):
updates the entry in place, inserting a fresh entry when absent. -/
def setTripped : Breakers → String → Bool → Breakers
  | [], n, b => [(n, b)]
  | (m, t) :: rest, n, b =>
    if m = n then (m, b) :: rest else (m, t) :: setTripped rest n b

/-- `breakers.emplace(name, Breaker(name))`: a no-op when the key is already
present, otherwise inserts an untripped breaker. -/
def emplaceBreaker (brs : Breakers) (n : String) : Breakers :=
  match findBreaker brs n with
  | some _ => brs
  | none => brs ++ [(n, false)]

/-- Sorted insertion into the fault set (`std::set<std::string>::insert`). -/
def insertFault : List String → String → List String
  | [], n => [n]
  | m :: rest, n =>
    if n = m then m :: rest
    else if n < m then n :: m :: rest
    else m :: insertFault rest n

/-- The state owned by `GridManager`. -/
structure GridState where
  sources : List Source
  loads : List Load
  breakers : Breakers
  faults : List String
deriving DecidableEq

/-- The freshly constructed `GridManager`: all collections empty. -/
def initState : GridState := ⟨[], [], [], []⟩

/-- One pass of the source loop: every untripped, connected `SolarSource`
overwrites its output with a fresh draw (`gen` applied at the source's
position); everything else is left untouched. -/
def resampleFrom (gen : Nat → ℚ) (brs : Breakers) : Nat → List Source → List Source
  | _, [] => []
  | i, s :: rest =>
    (if !isTrippedB brs s.name && s.solar && s.connected then
      { s with output := gen i } else s) :: resampleFrom gen brs (i + 1) rest

/-- Resample all sources, positions counted from 0. -/
def resampleSources (gen : Nat → ℚ) (brs : Breakers) (ss : List Source) : List Source :=
  resampleFrom gen brs 0 ss

/-- `totalPower`: sum of outputs over sources whose breaker is not tripped and
which report connected (the `dynamic_cast` in the loop always succeeds for the
source classes the program builds). -/
def totalPowerOf (ss : List Source) (brs : Breakers) : ℚ :=
  ((ss.filter (fun s => !isTrippedB brs s.name && s.connected)).map Source.output).sum

/-- `totalDemand` as first aggregated: sum of demands over loads whose breaker
is not tripped and which are connected. -/
def demandOf (loads : List Load) (brs : Breakers) : ℚ :=
  ((loads.filter (fun l => !isTrippedB brs l.name && l.connected)).map Load.demand).sum

/-- Priority of the load at index `i` (0 when out of range; only used through
in-range indices). -/
def priAt (loads : List Load) (i : Nat) : Int :=
  ((loads[i]?).map Load.priority).getD 0

/-- Demand of the load at index `i` (0 when out of range). -/
def demandAt (loads : List Load) (i : Nat) : ℚ :=
  ((loads[i]?).map Load.demand).getD 0

/-- Indices of the currently-connected loads, in registration order: the
shedding candidates collected by the deficit branch. -/
def connectedIdxs (loads : List Load) : List Nat :=
  (List.range loads.length).filter
    (fun i => ((loads[i]?).map Load.connected).getD false)

/-- Indices of the loads that are disconnected and whose breaker is not
tripped, in registration order: the reconnection candidates collected by the
surplus branch. -/
def restoreCandIdxs (loads : List Load) (brs : Breakers) : List Nat :=
  (List.range loads.length).filter
    (fun i => match loads[i]? with
      | some l => !l.connected && !isTrippedB brs l.name
      | none => false)

/-- `Load::disconnect()`. -/
def discOf (l : Load) : Load := { l with connected := false }

/-- `Load::reconnect()`. -/
def connOf (l : Load) : Load := { l with connected := true }

/-- Result of the deficit branch's walk. -/
structure ShedResult where
  loads : List Load
  breakers : Breakers
  totalDemand : ℚ
  shed : List Nat
deriving DecidableEq

/-- The deficit branch's walk over the sorted candidate list: disconnect the
load, trip its breaker, subtract its demand from `totalDemand`, and break as
soon as `totalPower >= totalDemand`. -/
def shedWalk (p : ℚ) : List Nat → List Load → Breakers → ℚ → ShedResult
  | [], loads, brs, td => ⟨loads, brs, td, []⟩
  | i :: rest, loads, brs, td =>
    match loads[i]? with
    | none => shedWalk p rest loads brs td
    | some l =>
      let loads2 := loads.set i (discOf l)
      let brs2 := setTripped brs l.name true
      let td2 := td - l.demand
      if td2 ≤ p then ⟨loads2, brs2, td2, [i]⟩
      else
        let r := shedWalk p rest loads2 brs2 td2
        ⟨r.loads, r.breakers, r.totalDemand, i :: r.shed⟩

/-- Result of the surplus branch's walk. -/
structure RestoreResult where
  loads : List Load
  totalDemand : ℚ
  reconnected : List Nat
deriving DecidableEq

/-- The surplus branch's walk over the sorted candidate list: reconnect the
load and add its demand to `totalDemand` only when
`totalPower >= totalDemand + demand` holds at that point; a load that does not
fit is skipped and the walk continues. -/
def restoreWalk (p : ℚ) : List Nat → List Load → ℚ → RestoreResult
  | [], loads, td => ⟨loads, td, []⟩
  | i :: rest, loads, td =>
    match loads[i]? with
    | none => restoreWalk p rest loads td
    | some l =>
      if td + l.demand ≤ p then
        let r := restoreWalk p rest (loads.set i (connOf l)) (td + l.demand)
        ⟨r.loads, r.totalDemand, i :: r.reconnected⟩
      else restoreWalk p rest loads td

/-- The data `GridManager::simulate` computes and logs in one cycle. -/
structure CycleReport where
  totalPower : ℚ
  totalDemand : ℚ
  shed : List Nat
  reconnected : List Nat
deriving DecidableEq

/-- `GridManager::simulate`, parameterised by the fresh solar draws `gen` and
by the index orders `shedIdx` / `restoreIdx` the two branches walk (the
`std::sort` calls pin these only up to the order of equal-priority loads). -/
def simulateWith (gen : Nat → ℚ) (shedIdx restoreIdx : List Nat)
    (st : GridState) : GridState × CycleReport :=
  let srcs2 := resampleSources gen st.breakers st.sources
  let p := totalPowerOf srcs2 st.breakers
  let td := demandOf st.loads st.breakers
  if p < td then
    let r := shedWalk p shedIdx st.loads st.breakers td
    (⟨srcs2, r.loads, r.breakers, st.faults⟩, ⟨p, r.totalDemand, r.shed, []⟩)
  else
    let r := restoreWalk p restoreIdx st.loads td
    (⟨srcs2, r.loads, st.breakers, st.faults⟩, ⟨p, r.totalDemand, [], r.reconnected⟩)

/-- Validity of a deficit-branch walk order: what `std::sort` applied to the
connected-load candidates with comparator `priority a > priority b`
guarantees, and nothing more. -/
def ValidShedOrder (st : GridState) (idxs : List Nat) : Prop :=
  idxs.Perm (connectedIdxs st.loads) ∧
    idxs.Pairwise (fun i j => priAt st.loads j ≤ priAt st.loads i)

/-- Validity of a surplus-branch walk order: what `std::sort` applied to the
disconnected-untripped candidates with comparator `priority a < priority b`
guarantees. -/
def ValidRestoreOrder (st : GridState) (idxs : List Nat) : Prop :=
  idxs.Perm (restoreCandIdxs st.loads st.breakers) ∧
    idxs.Pairwise (fun i j => priAt st.loads i ≤ priAt st.loads j)

/-- One deterministic refinement of the deficit-branch `std::sort`: a stable
descending sort of the connected candidates. -/
def stableShedOrder (st : GridState) : List Nat :=
  List.insertionSort (fun i j => priAt st.loads j ≤ priAt st.loads i)
    (connectedIdxs st.loads)

/-- One deterministic refinement of the surplus-branch `std::sort`: a stable
ascending sort of the reconnection candidates. -/
def stableRestoreOrder (st : GridState) : List Nat :=
  List.insertionSort (fun i j => priAt st.loads i ≤ priAt st.loads j)
    (restoreCandIdxs st.loads st.breakers)

/-- `GridManager::simulate` with the walk orders fixed to the stable sorts:
one concrete execution among those the C++ admits. -/
def runCycle (gen : Nat → ℚ) (st : GridState) : GridState × CycleReport :=
  simulateWith gen (stableShedOrder st) (stableRestoreOrder st) st

/-- `GridManager::addLoad`: append the load, emplace a breaker for its name. -/
def addLoad (st : GridState) (l : Load) : GridState :=
  { st with loads := st.loads ++ [l],
            breakers := emplaceBreaker st.breakers l.name }

/-- `GridManager::addSource`: append the source, emplace a breaker for its
name, then immediately run a full simulation cycle. -/
def addSource (gen : Nat → ℚ) (shedIdx restoreIdx : List Nat)
    (st : GridState) (s : Source) : GridState :=
  (simulateWith gen shedIdx restoreIdx
    { st with sources := st.sources ++ [s],
              breakers := emplaceBreaker st.breakers s.name }).1

/-- The selector `injectManualFault` parses from the operator: a load index
(`L<i>`), a source index (`S<i>`), or any other first character, in which case
the target name stays the empty string. -/
inductive FaultSel where
  | ld (i : Nat)
  | src (i : Nat)
  | malformed
deriving DecidableEq

/-- `GridManager::injectManualFault`: resolve the selector to a component
name, insert it into the fault set and trip its breaker. -/
def injectManualFault (st : GridState) (sel : FaultSel) : GridState :=
  let name :=
    match sel with
    | .ld i => ((st.loads[i]?).map Load.name).getD ""
    | .src i => ((st.sources[i]?).map Source.name).getD ""
    | .malformed => ""
  { st with faults := insertFault st.faults name,
            breakers := setTripped st.breakers name true }

/-- `GridManager::resolveManualFault`: reset the breaker of the fault-set
entry at position `i` of the iteration order, erase that entry, and
immediately re-run the cycle procedure. -/
def resolveManualFault (gen : Nat → ℚ) (shedIdx restoreIdx : List Nat)
    (st : GridState) (i : Nat) : GridState :=
  let name := (st.faults[i]?).getD ""
  (simulateWith gen shedIdx restoreIdx
    { st with breakers := setTripped st.breakers name false,
              faults := st.faults.eraseIdx i }).1

/-- `GridManager::disconnectLoad` (in-range behaviour; the C++ performs an
unchecked `loads[index]` access). -/
def disconnectLoad (st : GridState) (i : Nat) : GridState :=
  match st.loads[i]? with
  | some l => { st with loads := st.loads.set i (discOf l) }
  | none => st

/-- `GridManager::reconnectLoad` (in-range behaviour; the C++ performs an
unchecked `loads[index]` access). -/
def reconnectLoad (st : GridState) (i : Nat) : GridState :=
  match st.loads[i]? with
  | some l => { st with loads := st.loads.set i (connOf l) }
  | none => st

instance instDecValidShedOrder (st : GridState) (idxs : List Nat) :
    Decidable (ValidShedOrder st idxs) :=
  inferInstanceAs (Decidable (_ ∧ _))

instance instDecValidRestoreOrder (st : GridState) (idxs : List Nat) :
    Decidable (ValidRestoreOrder st idxs) :=
  inferInstanceAs (Decidable (_ ∧ _))

/-- Name of the load at index `i` (empty when out of range). -/
def nameAt (loads : List Load) (i : Nat) : String :=
  ((loads[i]?).map Load.name).getD ""

/-- Names of the loads at the given indices. -/
def namesAt (loads : List Load) (idxs : List Nat) : List String :=
  idxs.map (nameAt loads)

/-- Sum of the demands of the loads at the given indices. -/
def sumDemandAt (loads : List Load) (idxs : List Nat) : ℚ :=
  (idxs.map (demandAt loads)).sum

/-- Cumulative effect on the load list of disconnecting the loads at the
given indices. -/
def shedMarks (loads : List Load) (idxs : List Nat) : List Load :=
  idxs.foldl
    (fun ls i => match ls[i]? with
      | some l => ls.set i (discOf l)
      | none => ls) loads

/-- Cumulative effect on the load list of reconnecting the loads at the
given indices. -/
def restoreMarks (loads : List Load) (idxs : List Nat) : List Load :=
  idxs.foldl
    (fun ls i => match ls[i]? with
      | some l => ls.set i (connOf l)
      | none => ls) loads

/-- Cumulative effect on the breaker registry of tripping the given names. -/
def tripNames (brs : Breakers) (names : List String) : Breakers :=
  names.foldl (fun bs n => setTripped bs n true) brs

/-- No load is both connected and breaker-tripped (positional form). -/
def InvLB (loads : List Load) (brs : Breakers) : Prop :=
  ∀ (j : Nat) (l : Load),
    loads[j]? = some l → l.connected = true → isTrippedB brs l.name = false

/-- The registered loads carry pairwise distinct names. -/
def NamesNodup (loads : List Load) : Prop :=
  (loads.map Load.name).Nodup

/-- The claim's description of the surplus branch, stated over index lists:
incremental greedy admission — a candidate is taken exactly when
`totalPower >= totalDemand + demand` holds at that point, and its demand is
then added to the running total.  Used to compare the code's walk against the
specified rule. -/
def specGreedyAdmit (p : ℚ) (loads : List Load) : ℚ → List Nat → List Nat
  | _, [] => []
  | td, i :: rest =>
    if td + demandAt loads i ≤ p then
      i :: specGreedyAdmit p loads (td + demandAt loads i) rest
    else specGreedyAdmit p loads td rest

instance instDecInvLB (loads : List Load) (brs : Breakers) : Decidable (InvLB loads brs) :=
  decidable_of_iff
    (∀ l ∈ loads, l.connected = true → isTrippedB brs l.name = false)
    (by
      constructor
      · intro h j l hj hc
        exact h l (List.mem_iff_getElem?.mpr ⟨j, hj⟩) hc
      · intro h l hl hc
        obtain ⟨j, hj⟩ := List.mem_iff_getElem?.mp hl
        exact h j l hj hc)

instance instDecNamesNodup (loads : List Load) : Decidable (NamesNodup loads) :=
  inferInstanceAs (Decidable (List.Nodup _))

/-- The cycle's `totalPower` aggregate, computed on the resampled sources. -/
def powerAfter (gen : Nat → ℚ) (st : GridState) : ℚ :=
  totalPowerOf (resampleSources gen st.breakers st.sources) st.breakers

/-- The cycle's initial `totalDemand` aggregate. -/
def demand0 (st : GridState) : ℚ :=
  demandOf st.loads st.breakers

/-- What claim C1 asserts of one deficit cycle, with the stable-tie-break
requirement weakened to the walked order `shedIdx` (the amendment): some
prefix of the order is walked; each walked load ends disconnected with its
breaker tripped; every other load is untouched; `totalDemand` decreases by
exactly the walked demands; and the walk stops as soon as
`totalPower >= totalDemand`, never earlier and never later. -/
def ShedOutcome (st : GridState) (shedIdx : List Nat)
    (out : GridState × CycleReport) : Prop :=
  ∃ k, k ≤ shedIdx.length ∧
    out.2.shed = shedIdx.take k ∧
    (∀ i ∈ shedIdx.take k, ∃ l, st.loads[i]? = some l ∧
      out.1.loads[i]? = some (discOf l) ∧
      isTrippedB out.1.breakers l.name = true) ∧
    (∀ j : Nat, j ∉ shedIdx.take k → out.1.loads[j]? = st.loads[j]?) ∧
    out.2.totalDemand = demand0 st - sumDemandAt st.loads (shedIdx.take k) ∧
    (∀ j, 0 < j → j < k →
      out.2.totalPower < demand0 st - sumDemandAt st.loads (shedIdx.take j)) ∧
    (k < shedIdx.length →
      demand0 st - sumDemandAt st.loads (shedIdx.take k) ≤ out.2.totalPower) ∧
    out.2.reconnected = [] ∧
    out.1.faults = st.faults ∧
    out.1.breakers = tripNames st.breakers (namesAt st.loads (shedIdx.take k))

/-- What claim C2 asserts of one surplus cycle: the reconnected loads are
exactly those chosen by the incremental greedy admission rule over the walked
order; each was a disconnected, untripped candidate and ends reconnected;
every skipped load is untouched (so a candidate that does not fit stays
disconnected); `totalDemand` grows by exactly the admitted demands; breakers
and faults are untouched. -/
def RestoreOutcome (st : GridState) (restoreIdx : List Nat)
    (out : GridState × CycleReport) : Prop :=
  out.2.reconnected = specGreedyAdmit out.2.totalPower st.loads (demand0 st) restoreIdx ∧
  (∀ i ∈ out.2.reconnected, ∃ l, st.loads[i]? = some l ∧ l.connected = false ∧
    isTrippedB st.breakers l.name = false ∧ out.1.loads[i]? = some (connOf l)) ∧
  (∀ j : Nat, j ∉ out.2.reconnected → out.1.loads[j]? = st.loads[j]?) ∧
  out.2.totalDemand = demand0 st + sumDemandAt st.loads out.2.reconnected ∧
  out.1.breakers = st.breakers ∧
  out.1.faults = st.faults ∧
  out.2.shed = []

/-- Validity of the operator's fault-injection selector: an in-range load or
source index, or a malformed selector (whose target name parses to the empty
string). -/
def SelOk (st : GridState) : FaultSel → Prop
  | .ld i => i < st.loads.length
  | .src i => i < st.sources.length
  | .malformed => True

instance instDecSelOk (st : GridState) : (sel : FaultSel) → Decidable (SelOk st sel)
  | .ld i => inferInstanceAs (Decidable (i < st.loads.length))
  | .src i => inferInstanceAs (Decidable (i < st.sources.length))
  | .malformed => inferInstanceAs (Decidable True)

/-- The engine states reachable from a fresh `GridManager` through the
operations the program exposes, with every cycle taken under arbitrary fresh
solar draws and arbitrary walk orders (covering every behaviour the
`std::sort` contract admits), and indexed operations taken in range (out of
range they are undefined behaviour in the C++). -/
inductive Reachable : GridState → Prop
  | init : Reachable initState
  | addSourceStep {st : GridState} (gen : Nat → ℚ) (so ro : List Nat) (s : Source) :
      Reachable st → Reachable (addSource gen so ro st s)
  | addLoadStep {st : GridState} (l : Load) :
      Reachable st → Reachable (addLoad st l)
  | simulateStep {st : GridState} (gen : Nat → ℚ) (so ro : List Nat) :
      Reachable st → Reachable (simulateWith gen so ro st).1
  | injectStep {st : GridState} (sel : FaultSel) :
      Reachable st → SelOk st sel → Reachable (injectManualFault st sel)
  | resolveStep {st : GridState} (gen : Nat → ℚ) (so ro : List Nat) (i : Nat) :
      Reachable st → i < st.faults.length →
      Reachable (resolveManualFault gen so ro st i)
  | disconnectStep {st : GridState} (i : Nat) :
      Reachable st → i < st.loads.length → Reachable (disconnectLoad st i)
  | reconnectStep {st : GridState} (i : Nat) :
      Reachable st → i < st.loads.length → Reachable (reconnectLoad st i)

/-- Example grid for the witnesses: a 10 kW source against two connected
loads of 30 kW (priority 2) and 15 kW (priority 1) — a power deficit. -/
def exDeficitGrid : GridState :=
  ⟨[⟨"Hydro", 10, false, true, false⟩],
   [⟨"Factory", 30, true, 2⟩, ⟨"House", 15, true, 1⟩],
   [("Hydro", false), ("Factory", false), ("House", false)], []⟩

/-- Example grid for the witnesses: a 30 kW source, one disconnected
untripped 10 kW load — a surplus with a reconnection candidate. -/
def exSurplusGrid : GridState :=
  ⟨[⟨"Hydro", 30, false, true, false⟩], [⟨"House", 10, false, 1⟩],
   [("Hydro", false), ("House", false)], []⟩

/-- Example grid for the witnesses: one disconnected load whose breaker is
tripped and whose name is registered in the fault set. -/
def exFaultGrid : GridState :=
  ⟨[], [⟨"House", 10, false, 1⟩], [("House", true)], ["House"]⟩

/-- Grid for the C1 counterexample: a 10 kW source against two connected
equal-priority 10 kW loads, registered as index 0 then index 1. -/
def c1CexGrid : GridState :=
  ⟨[⟨"S", 10, false, true, false⟩],
   [⟨"A", 10, true, 5⟩, ⟨"B", 10, true, 5⟩],
   [("S", false), ("A", false), ("B", false)], []⟩

/-- Grid for the C3 counterexample, reachable by registering a 20 kW source
and a connected 10 kW load and then injecting a manual fault at the load:
the fault trips the breaker but leaves the load connected. -/
def c3CexGrid : GridState :=
  injectManualFault
    (addLoad (addSource (fun _ => 0) [] [] initState ⟨"S", 20, false, true, false⟩)
      ⟨"A", 10, true, 5⟩)
    (FaultSel.ld 0)

/-- Grid for the C4 counterexample, reachable by registering a 5 kW source,
two connected loads (10 kW priority 9, 20 kW priority 1) and injecting a
manual fault at the first load: the first load stays connected with its
breaker tripped, so its demand is excluded from `totalDemand` but the deficit
walk still subtracts it. -/
def c4CexGrid : GridState :=
  injectManualFault
    (addLoad
      (addLoad (addSource (fun _ => 0) [] [] initState ⟨"S", 5, false, true, false⟩)
        ⟨"A", 10, true, 9⟩)
      ⟨"B", 20, true, 1⟩)
    (FaultSel.ld 0)


theorem findBreaker_setTripped (brs : Breakers) (n m : String) (b : Bool) :
    findBreaker (setTripped brs n b) m = if n = m then some b else findBreaker brs m := by
  induction brs with
  | nil =>
    simp only [setTripped, findBreaker]
  | cons hd tl ih =>
    obtain ⟨hm, ht⟩ := hd
    by_cases h1 : hm = n
    · subst h1
      simp only [setTripped, if_pos rfl, findBreaker]
      by_cases h2 : hm = m <;> simp [h2]
    · simp only [setTripped, if_neg h1, findBreaker]
      by_cases h2 : hm = m
      · subst h2
        have : ¬ n = hm := fun h => h1 h.symm
        simp [this]
      · simp [h2, ih]

theorem isTrippedB_setTripped (brs : Breakers) (n m : String) (b : Bool) :
    isTrippedB (setTripped brs n b) m = if n = m then b else isTrippedB brs m := by
  unfold isTrippedB
  rw [findBreaker_setTripped]
  by_cases h : n = m <;> simp [h]

theorem findBreaker_append (l1 l2 : Breakers) (m : String) :
    findBreaker (l1 ++ l2) m = ((findBreaker l1 m).or (findBreaker l2 m)) := by
  induction l1 with
  | nil => simp [findBreaker]
  | cons hd tl ih =>
    obtain ⟨hm, ht⟩ := hd
    by_cases h : hm = m <;> simp [findBreaker, h, ih]

theorem emplaceBreaker_of_isSome (brs : Breakers) (n : String)
    (h : (findBreaker brs n).isSome = true) : emplaceBreaker brs n = brs := by
  unfold emplaceBreaker
  match h2 : findBreaker brs n with
  | some b => rfl
  | none => rw [h2] at h; simp at h

theorem isTrippedB_emplace (brs : Breakers) (n m : String) :
    isTrippedB (emplaceBreaker brs n) m = isTrippedB brs m := by
  unfold emplaceBreaker
  match h2 : findBreaker brs n with
  | some b => rfl
  | none =>
    unfold isTrippedB
    rw [findBreaker_append]
    match h3 : findBreaker brs m with
    | some b => rfl
    | none =>
      simp only [Option.or_none, Option.none_or]
      by_cases h : n = m <;> simp [findBreaker, h]

theorem mem_connectedIdxs {loads : List Load} {i : Nat} :
    i ∈ connectedIdxs loads ↔ ∃ l, loads[i]? = some l ∧ l.connected = true := by
  unfold connectedIdxs
  rw [List.mem_filter, List.mem_range]
  constructor
  · rintro ⟨hlt, hc⟩
    match h : loads[i]? with
    | some l =>
      refine ⟨l, rfl, ?_⟩
      rw [h] at hc
      simpa using hc
    | none =>
      rw [h] at hc
      simp at hc
  · rintro ⟨l, hl, hc⟩
    have hlt : i < loads.length := by
      by_contra hge
      rw [List.getElem?_eq_none (by omega)] at hl
      exact Option.noConfusion hl
    exact ⟨hlt, by rw [hl]; simpa using hc⟩

theorem mem_restoreCandIdxs {loads : List Load} {brs : Breakers} {i : Nat} :
    i ∈ restoreCandIdxs loads brs ↔
      ∃ l, loads[i]? = some l ∧ l.connected = false ∧ isTrippedB brs l.name = false := by
  unfold restoreCandIdxs
  rw [List.mem_filter, List.mem_range]
  constructor
  · rintro ⟨hlt, hc⟩
    match h : loads[i]? with
    | some l =>
      rw [h] at hc
      simp only [Bool.and_eq_true, Bool.not_eq_true'] at hc
      exact ⟨l, rfl, hc.1, hc.2⟩
    | none =>
      rw [h] at hc
      simp at hc
  · rintro ⟨l, hl, hc, ht⟩
    have hlt : i < loads.length := by
      by_contra hge
      rw [List.getElem?_eq_none (by omega)] at hl
      exact Option.noConfusion hl
    refine ⟨hlt, ?_⟩
    rw [hl]
    simp [hc, ht]

theorem connectedIdxs_nodup (loads : List Load) : (connectedIdxs loads).Nodup :=
  List.Nodup.filter _ (List.nodup_range _)

theorem restoreCandIdxs_nodup (loads : List Load) (brs : Breakers) :
    (restoreCandIdxs loads brs).Nodup :=
  List.Nodup.filter _ (List.nodup_range _)

theorem getElem?_isSome_of_eq_some {loads : List Load} {i : Nat} {l : Load}
    (h : loads[i]? = some l) : i < loads.length := by
  by_contra hge
  rw [List.getElem?_eq_none (by omega)] at h
  exact Option.noConfusion h

theorem demandAt_set {loads : List Load} {i : Nat} {l : Load} (x : Load)
    (h : loads[i]? = some l) (hd : x.demand = l.demand) (j : Nat) :
    demandAt (loads.set i x) j = demandAt loads j := by
  unfold demandAt
  rw [List.getElem?_set]
  by_cases hij : i = j
  · subst hij
    rw [if_pos rfl, if_pos (getElem?_isSome_of_eq_some h), h]
    simp [hd]
  · rw [if_neg hij]

theorem nameAt_set {loads : List Load} {i : Nat} {l : Load} (x : Load)
    (h : loads[i]? = some l) (hn : x.name = l.name) (j : Nat) :
    nameAt (loads.set i x) j = nameAt loads j := by
  unfold nameAt
  rw [List.getElem?_set]
  by_cases hij : i = j
  · subst hij
    rw [if_pos rfl, if_pos (getElem?_isSome_of_eq_some h), h]
    simp [hn]
  · rw [if_neg hij]

theorem sumDemandAt_cons (loads : List Load) (i : Nat) (idxs : List Nat) :
    sumDemandAt loads (i :: idxs) = demandAt loads i + sumDemandAt loads idxs := by
  simp [sumDemandAt]

theorem sumDemandAt_congr {loads loads2 : List Load}
    (h : ∀ j, demandAt loads2 j = demandAt loads j) (idxs : List Nat) :
    sumDemandAt loads2 idxs = sumDemandAt loads idxs := by
  unfold sumDemandAt
  congr 1
  exact List.map_congr_left (fun i _ => h i)

theorem namesAt_congr {loads loads2 : List Load}
    (h : ∀ j, nameAt loads2 j = nameAt loads j) (idxs : List Nat) :
    namesAt loads2 idxs = namesAt loads idxs := by
  unfold namesAt
  exact List.map_congr_left (fun i _ => h i)

theorem shedMarks_nil (loads : List Load) : shedMarks loads [] = loads := rfl

theorem shedMarks_cons (loads : List Load) (i : Nat) (idxs : List Nat) :
    shedMarks loads (i :: idxs) =
      shedMarks (match loads[i]? with
        | some l => loads.set i (discOf l)
        | none => loads) idxs := rfl

theorem restoreMarks_cons (loads : List Load) (i : Nat) (idxs : List Nat) :
    restoreMarks loads (i :: idxs) =
      restoreMarks (match loads[i]? with
        | some l => loads.set i (connOf l)
        | none => loads) idxs := rfl

theorem discOf_idem (l : Load) : discOf (discOf l) = discOf l := rfl

theorem connOf_idem (l : Load) : connOf (connOf l) = connOf l := rfl

theorem shedMarks_getElem? :
    ∀ (idxs : List Nat) (loads : List Load) (j : Nat),
      (shedMarks loads idxs)[j]? =
        if j ∈ idxs then (loads[j]?).map discOf else loads[j]? := by
  intro idxs
  induction idxs with
  | nil => intro loads j; simp [shedMarks]
  | cons i rest ih =>
    intro loads j
    rw [shedMarks_cons]
    match h : loads[i]? with
    | none =>
      rw [ih]
      by_cases hj : j ∈ rest
      · simp [hj]
      · by_cases hji : j = i
        · subst hji
          simp [hj, h, List.mem_cons]
        · simp [hj, hji, List.mem_cons]
    | some l =>
      rw [ih]
      by_cases hj : j ∈ rest
      · rw [if_pos hj, if_pos (List.mem_cons_of_mem i hj)]
        rw [List.getElem?_set]
        by_cases hji : i = j
        · subst hji
          rw [if_pos rfl, if_pos (getElem?_isSome_of_eq_some h), h]
          simp [discOf]
        · rw [if_neg hji]
      · by_cases hji : j = i
        · subst hji
          rw [if_neg hj, if_pos (List.mem_cons_self j rest)]
          rw [List.getElem?_set, if_pos rfl, if_pos (getElem?_isSome_of_eq_some h), h]
          rfl
        · have : j ∉ i :: rest := by
            intro hmem
            rcases List.mem_cons.mp hmem with h1 | h2
            · exact hji h1
            · exact hj h2
          rw [if_neg hj, if_neg this, List.getElem?_set]
          rw [if_neg (fun hh => hji hh.symm)]

theorem restoreMarks_getElem? :
    ∀ (idxs : List Nat) (loads : List Load) (j : Nat),
      (restoreMarks loads idxs)[j]? =
        if j ∈ idxs then (loads[j]?).map connOf else loads[j]? := by
  intro idxs
  induction idxs with
  | nil => intro loads j; simp [restoreMarks]
  | cons i rest ih =>
    intro loads j
    rw [restoreMarks_cons]
    match h : loads[i]? with
    | none =>
      rw [ih]
      by_cases hj : j ∈ rest
      · simp [hj]
      · by_cases hji : j = i
        · subst hji
          simp [hj, h, List.mem_cons]
        · simp [hj, hji, List.mem_cons]
    | some l =>
      rw [ih]
      by_cases hj : j ∈ rest
      · rw [if_pos hj, if_pos (List.mem_cons_of_mem i hj)]
        rw [List.getElem?_set]
        by_cases hji : i = j
        · subst hji
          rw [if_pos rfl, if_pos (getElem?_isSome_of_eq_some h), h]
          simp [connOf]
        · rw [if_neg hji]
      · by_cases hji : j = i
        · subst hji
          rw [if_neg hj, if_pos (List.mem_cons_self j rest)]
          rw [List.getElem?_set, if_pos rfl, if_pos (getElem?_isSome_of_eq_some h), h]
          rfl
        · have : j ∉ i :: rest := by
            intro hmem
            rcases List.mem_cons.mp hmem with h1 | h2
            · exact hji h1
            · exact hj h2
          rw [if_neg hj, if_neg this, List.getElem?_set]
          rw [if_neg (fun hh => hji hh.symm)]

theorem isTrippedB_tripNames :
    ∀ (names : List String) (brs : Breakers) (m : String),
      isTrippedB (tripNames brs names) m =
        if m ∈ names then true else isTrippedB brs m := by
  intro names
  induction names with
  | nil => intro brs m; simp [tripNames]
  | cons n rest ih =>
    intro brs m
    have hstep : tripNames brs (n :: rest) = tripNames (setTripped brs n true) rest := rfl
    rw [hstep, ih, isTrippedB_setTripped]
    by_cases hm : m ∈ rest
    · simp [hm]
    · by_cases hmn : m = n
      · subst hmn
        simp [hm]
      · have hne : ¬ n = m := fun h => hmn h.symm
        have hnc : m ∉ n :: rest := by
          intro hmem
          rcases List.mem_cons.mp hmem with h1 | h2
          · exact hmn h1
          · exact hm h2
        rw [if_neg hm, if_neg hne, if_neg hnc]

theorem shedWalk_nil (p : ℚ) (loads : List Load) (brs : Breakers) (td : ℚ) :
    shedWalk p [] loads brs td = ⟨loads, brs, td, []⟩ := rfl

theorem shedWalk_cons_some (p : ℚ) (i : Nat) (rest : List Nat)
    (loads : List Load) (brs : Breakers) (td : ℚ) {l : Load}
    (h : loads[i]? = some l) :
    shedWalk p (i :: rest) loads brs td =
      if td - l.demand ≤ p then
        ⟨loads.set i (discOf l), setTripped brs l.name true, td - l.demand, [i]⟩
      else
        let r := shedWalk p rest (loads.set i (discOf l))
          (setTripped brs l.name true) (td - l.demand)
        ⟨r.loads, r.breakers, r.totalDemand, i :: r.shed⟩ := by
  simp only [shedWalk, h]

theorem restoreWalk_nil (p : ℚ) (loads : List Load) (td : ℚ) :
    restoreWalk p [] loads td = ⟨loads, td, []⟩ := rfl

theorem restoreWalk_cons_some (p : ℚ) (i : Nat) (rest : List Nat)
    (loads : List Load) (td : ℚ) {l : Load} (h : loads[i]? = some l) :
    restoreWalk p (i :: rest) loads td =
      if td + l.demand ≤ p then
        let r := restoreWalk p rest (loads.set i (connOf l)) (td + l.demand)
        ⟨r.loads, r.totalDemand, i :: r.reconnected⟩
      else restoreWalk p rest loads td := by
  simp only [restoreWalk, h]

theorem shedWalk_spec (p : ℚ) :
    ∀ (idxs : List Nat) (loads : List Load) (brs : Breakers) (td : ℚ),
      (∀ i ∈ idxs, i < loads.length) →
      ∃ k, k ≤ idxs.length ∧
        shedWalk p idxs loads brs td =
          ⟨shedMarks loads (idxs.take k),
           tripNames brs (namesAt loads (idxs.take k)),
           td - sumDemandAt loads (idxs.take k),
           idxs.take k⟩ ∧
        (∀ j, 0 < j → j < k → p < td - sumDemandAt loads (idxs.take j)) ∧
        (k < idxs.length → td - sumDemandAt loads (idxs.take k) ≤ p) := by
  intro idxs
  induction idxs with
  | nil =>
    intro loads brs td _
    refine ⟨0, Nat.le_refl 0, ?_, ?_, ?_⟩
    · simp [shedWalk_nil, shedMarks_nil, tripNames, namesAt, sumDemandAt]
    · intro j h1 h2; omega
    · intro h; simp at h
  | cons i rest ih =>
    intro loads brs td hv
    have hi : i < loads.length := hv i (List.mem_cons_self i rest)
    have hsome : loads[i]? = some loads[i] := List.getElem?_eq_getElem hi
    rw [shedWalk_cons_some p i rest loads brs td hsome]
    have hdA : demandAt loads i = loads[i].demand := by
      unfold demandAt; rw [hsome]; rfl
    have hnA : nameAt loads i = loads[i].name := by
      unfold nameAt; rw [hsome]; rfl
    by_cases hstop : td - loads[i].demand ≤ p
    · refine ⟨1, by simp, ?_, ?_, ?_⟩
      · rw [if_pos hstop]
        have htake : (i :: rest).take 1 = [i] := rfl
        rw [htake]
        have h1 : shedMarks loads [i] = loads.set i (discOf loads[i]) := by
          rw [shedMarks_cons, hsome, shedMarks_nil]
        have h2 : namesAt loads [i] = [loads[i].name] := by
          simp [namesAt, hnA]
        have h3 : sumDemandAt loads [i] = loads[i].demand := by
          simp [sumDemandAt, hdA]
        rw [h1, h2, h3]
        rfl
      · intro j h1 h2; omega
      · intro _
        have htake : (i :: rest).take 1 = [i] := rfl
        rw [htake]
        have h3 : sumDemandAt loads [i] = loads[i].demand := by
          simp [sumDemandAt, hdA]
        rw [h3]; exact hstop
    · rw [if_neg hstop]
      have hv2 : ∀ i2 ∈ rest, i2 < (loads.set i (discOf loads[i])).length := by
        intro i2 h2
        rw [List.length_set]
        exact hv i2 (List.mem_cons_of_mem i h2)
      obtain ⟨k, hkle, heq, hc1, hc2⟩ :=
        ih (loads.set i (discOf loads[i])) (setTripped brs loads[i].name true)
          (td - loads[i].demand) hv2
      have hdpres : ∀ j, demandAt (loads.set i (discOf loads[i])) j = demandAt loads j :=
        demandAt_set (discOf loads[i]) hsome rfl
      have hnpres : ∀ j, nameAt (loads.set i (discOf loads[i])) j = nameAt loads j :=
        nameAt_set (discOf loads[i]) hsome rfl
      refine ⟨k + 1, by simp; omega, ?_, ?_, ?_⟩
      · rw [heq]
        have htake : (i :: rest).take (k + 1) = i :: rest.take k := List.take_succ_cons
        rw [htake]
        have h1 : shedMarks loads (i :: rest.take k) =
            shedMarks (loads.set i (discOf loads[i])) (rest.take k) := by
          rw [shedMarks_cons, hsome]
        have h2 : namesAt loads (i :: rest.take k) =
            loads[i].name :: namesAt loads (rest.take k) := by
          simp [namesAt, hnA]
        have h3 : tripNames brs (loads[i].name :: namesAt loads (rest.take k)) =
            tripNames (setTripped brs loads[i].name true) (namesAt loads (rest.take k)) := rfl
        have h4 : namesAt (loads.set i (discOf loads[i])) (rest.take k) =
            namesAt loads (rest.take k) := namesAt_congr hnpres _
        have h5 : sumDemandAt (loads.set i (discOf loads[i])) (rest.take k) =
            sumDemandAt loads (rest.take k) := sumDemandAt_congr hdpres _
        rw [h1, h2, h3, h4, h5, sumDemandAt_cons, hdA]
        have h6 : td - loads[i].demand - sumDemandAt loads (rest.take k) =
            td - (loads[i].demand + sumDemandAt loads (rest.take k)) := by ring
        rw [h6]
      · intro j hj0 hjk
        match j, hj0 with
        | jj + 1, _ =>
          have htake : (i :: rest).take (jj + 1) = i :: rest.take jj := List.take_succ_cons
          rw [htake, sumDemandAt_cons, hdA]
          have harith : td - (loads[i].demand + sumDemandAt loads (rest.take jj)) =
              td - loads[i].demand - sumDemandAt loads (rest.take jj) := by ring
          rw [harith]
          by_cases hjj : jj = 0
          · subst hjj
            simp only [List.take_zero]
            have : sumDemandAt loads [] = 0 := by simp [sumDemandAt]
            rw [this, sub_zero]
            exact lt_of_not_ge hstop
          · have := hc1 jj (by omega) (by omega)
            rw [sumDemandAt_congr hdpres] at this
            exact this
      · intro hklen
        have htake : (i :: rest).take (k + 1) = i :: rest.take k := List.take_succ_cons
        rw [htake, sumDemandAt_cons, hdA]
        have harith : td - (loads[i].demand + sumDemandAt loads (rest.take k)) =
            td - loads[i].demand - sumDemandAt loads (rest.take k) := by ring
        rw [harith]
        have hklen2 : k < rest.length := by
          simp at hklen; omega
        have := hc2 hklen2
        rw [sumDemandAt_congr hdpres] at this
        exact this

theorem specGreedyAdmit_congr {loads loads2 : List Load} (p : ℚ)
    (h : ∀ j, demandAt loads2 j = demandAt loads j) :
    ∀ (idxs : List Nat) (td : ℚ),
      specGreedyAdmit p loads2 td idxs = specGreedyAdmit p loads td idxs := by
  intro idxs
  induction idxs with
  | nil => intro td; rfl
  | cons i rest ih =>
    intro td
    simp only [specGreedyAdmit, h i]
    by_cases hle : td + demandAt loads i ≤ p
    · rw [if_pos hle, if_pos hle, ih]
    · rw [if_neg hle, if_neg hle, ih]

theorem specGreedyAdmit_sublist (p : ℚ) (loads : List Load) :
    ∀ (idxs : List Nat) (td : ℚ), (specGreedyAdmit p loads td idxs).Sublist idxs := by
  intro idxs
  induction idxs with
  | nil => intro td; simp [specGreedyAdmit]
  | cons i rest ih =>
    intro td
    simp only [specGreedyAdmit]
    by_cases hle : td + demandAt loads i ≤ p
    · rw [if_pos hle]
      exact List.Sublist.cons₂ i (ih _)
    · rw [if_neg hle]
      exact List.Sublist.cons i (ih _)

theorem restoreWalk_spec (p : ℚ) :
    ∀ (idxs : List Nat) (loads : List Load) (td : ℚ),
      (∀ i ∈ idxs, i < loads.length) →
      restoreWalk p idxs loads td =
        ⟨restoreMarks loads (specGreedyAdmit p loads td idxs),
         td + sumDemandAt loads (specGreedyAdmit p loads td idxs),
         specGreedyAdmit p loads td idxs⟩ := by
  intro idxs
  induction idxs with
  | nil =>
    intro loads td _
    simp [restoreWalk_nil, specGreedyAdmit, restoreMarks, sumDemandAt]
  | cons i rest ih =>
    intro loads td hv
    have hi : i < loads.length := hv i (List.mem_cons_self i rest)
    have hsome : loads[i]? = some loads[i] := List.getElem?_eq_getElem hi
    have hdA : demandAt loads i = loads[i].demand := by
      unfold demandAt; rw [hsome]; rfl
    rw [restoreWalk_cons_some p i rest loads td hsome]
    simp only [specGreedyAdmit, hdA]
    by_cases hfit : td + loads[i].demand ≤ p
    · rw [if_pos hfit, if_pos hfit]
      have hdpres : ∀ j, demandAt (loads.set i (connOf loads[i])) j = demandAt loads j :=
        demandAt_set (connOf loads[i]) hsome rfl
      have hv2 : ∀ i2 ∈ rest, i2 < (loads.set i (connOf loads[i])).length := by
        intro i2 h2
        rw [List.length_set]
        exact hv i2 (List.mem_cons_of_mem i h2)
      rw [ih (loads.set i (connOf loads[i])) (td + loads[i].demand) hv2]
      have hgr : specGreedyAdmit p (loads.set i (connOf loads[i])) (td + loads[i].demand) rest =
          specGreedyAdmit p loads (td + loads[i].demand) rest :=
        specGreedyAdmit_congr p hdpres rest (td + loads[i].demand)
      rw [hgr]
      have h1 : restoreMarks loads (i :: specGreedyAdmit p loads (td + loads[i].demand) rest) =
          restoreMarks (loads.set i (connOf loads[i]))
            (specGreedyAdmit p loads (td + loads[i].demand) rest) := by
        rw [restoreMarks_cons, hsome]
      have h5 : sumDemandAt (loads.set i (connOf loads[i]))
            (specGreedyAdmit p loads (td + loads[i].demand) rest) =
          sumDemandAt loads (specGreedyAdmit p loads (td + loads[i].demand) rest) :=
        sumDemandAt_congr hdpres _
      rw [h1, h5, sumDemandAt_cons, hdA]
      have harith : td + loads[i].demand +
            sumDemandAt loads (specGreedyAdmit p loads (td + loads[i].demand) rest) =
          td + (loads[i].demand +
            sumDemandAt loads (specGreedyAdmit p loads (td + loads[i].demand) rest)) := by ring
      rw [harith]
    · rw [if_neg hfit, if_neg hfit]
      exact ih loads td (fun i2 h2 => hv i2 (List.mem_cons_of_mem i h2))

theorem demandOf_cons (x : Load) (tl : List Load) (brs : Breakers) :
    demandOf (x :: tl) brs =
      (if (!isTrippedB brs x.name && x.connected) = true then x.demand else 0) +
        demandOf tl brs := by
  unfold demandOf
  rw [List.filter_cons]
  by_cases h : (!isTrippedB brs x.name && x.connected) = true
  · rw [if_pos h, if_pos h]
    simp
  · rw [if_neg h, if_neg h]
    simp

theorem demandOf_set_disc :
    ∀ (loads : List Load) (i : Nat) (l : Load) (brs : Breakers),
      loads[i]? = some l → l.connected = true → isTrippedB brs l.name = false →
      demandOf (loads.set i (discOf l)) brs = demandOf loads brs - l.demand := by
  intro loads
  induction loads with
  | nil => intro i l brs h _ _; simp at h
  | cons x tl ih =>
    intro i l brs h hc ht
    match i with
    | 0 =>
      simp only [List.getElem?_cons_zero, Option.some.injEq] at h
      subst h
      rw [List.set_cons_zero, demandOf_cons, demandOf_cons]
      have h1 : (!isTrippedB brs (discOf x).name && (discOf x).connected) = false := by
        simp [discOf]
      have h2 : (!isTrippedB brs x.name && x.connected) = true := by
        rw [ht, hc]; rfl
      rw [h1, h2]
      simp
    | j + 1 =>
      rw [List.getElem?_cons_succ] at h
      rw [List.set_cons_succ, demandOf_cons, demandOf_cons, ih j l brs h hc ht]
      ring

theorem demandOf_set_conn :
    ∀ (loads : List Load) (i : Nat) (l : Load) (brs : Breakers),
      loads[i]? = some l → l.connected = false → isTrippedB brs l.name = false →
      demandOf (loads.set i (connOf l)) brs = demandOf loads brs + l.demand := by
  intro loads
  induction loads with
  | nil => intro i l brs h _ _; simp at h
  | cons x tl ih =>
    intro i l brs h hc ht
    match i with
    | 0 =>
      simp only [List.getElem?_cons_zero, Option.some.injEq] at h
      subst h
      rw [List.set_cons_zero, demandOf_cons, demandOf_cons]
      have h1 : (!isTrippedB brs (connOf x).name && (connOf x).connected) = true := by
        simp [connOf, ht]
      have h2 : (!isTrippedB brs x.name && x.connected) = false := by
        rw [hc]; simp
      rw [h1, h2]
      simp [connOf]
      ring
    | j + 1 =>
      rw [List.getElem?_cons_succ] at h
      rw [List.set_cons_succ, demandOf_cons, demandOf_cons, ih j l brs h hc ht]
      ring

theorem demandOf_setTripped_true :
    ∀ (loads : List Load) (brs : Breakers) (n : String),
      (∀ (j : Nat) (l : Load), loads[j]? = some l → l.name = n → l.connected = false) →
      demandOf loads (setTripped brs n true) = demandOf loads brs := by
  intro loads
  induction loads with
  | nil => intro brs n _; rfl
  | cons x tl ih =>
    intro brs n hnc
    rw [demandOf_cons, demandOf_cons]
    have htl : demandOf tl (setTripped brs n true) = demandOf tl brs := by
      apply ih
      intro j l hj
      exact hnc (j + 1) l (by rw [List.getElem?_cons_succ]; exact hj)
    rw [htl]
    by_cases hxn : x.name = n
    · have hxc : x.connected = false := hnc 0 x (by simp) hxn
      rw [hxc]
      simp
    · have hcond : isTrippedB (setTripped brs n true) x.name = isTrippedB brs x.name := by
        rw [isTrippedB_setTripped, if_neg (fun h : n = x.name => hxn h.symm)]
      rw [hcond]

theorem set_getElem?_self {α : Type} (xs : List α) (i : Nat) (a : α)
    (h : xs[i]? = some a) : xs.set i a = xs := by
  apply List.ext_getElem?
  intro n
  rw [List.getElem?_set]
  by_cases hin : i = n
  · subst hin
    have hlt : i < xs.length := by
      by_contra hge
      rw [List.getElem?_eq_none (by omega)] at h
      exact Option.noConfusion h
    rw [if_pos rfl, if_pos hlt, h]
  · rw [if_neg hin]

theorem namesNodup_idx_inj {loads : List Load} (hnd : NamesNodup loads)
    {i j : Nat} {li lj : Load} (hi : loads[i]? = some li) (hj : loads[j]? = some lj)
    (hname : li.name = lj.name) : i = j := by
  have h1 : i < (loads.map Load.name).length := by
    rw [List.length_map]
    exact getElem?_isSome_of_eq_some hi
  have h3 : (loads.map Load.name)[i]? = (loads.map Load.name)[j]? := by
    rw [List.getElem?_map, List.getElem?_map, hi, hj]
    simp [hname]
  exact List.getElem?_inj h1 hnd h3

theorem namesNodup_set {loads : List Load} {i : Nat} {l : Load} (x : Load)
    (h : loads[i]? = some l) (hn : x.name = l.name) (hnd : NamesNodup loads) :
    NamesNodup (loads.set i x) := by
  unfold NamesNodup
  rw [List.map_set]
  have h2 : (loads.map Load.name)[i]? = some x.name := by
    rw [List.getElem?_map, h]
    simp [hn]
  rw [set_getElem?_self _ _ _ h2]
  exact hnd

theorem shedWalk_conserve (p : ℚ) :
    ∀ (idxs : List Nat) (loads : List Load) (brs : Breakers) (td : ℚ),
      InvLB loads brs → NamesNodup loads →
      (∀ i ∈ idxs, ∃ l, loads[i]? = some l ∧ l.connected = true) →
      idxs.Nodup → td = demandOf loads brs →
      (shedWalk p idxs loads brs td).totalDemand =
          demandOf (shedWalk p idxs loads brs td).loads
            (shedWalk p idxs loads brs td).breakers ∧
        InvLB (shedWalk p idxs loads brs td).loads
          (shedWalk p idxs loads brs td).breakers := by
  intro idxs
  induction idxs with
  | nil =>
    intro loads brs td hinv _ _ _ htd
    rw [shedWalk_nil]
    exact ⟨htd, hinv⟩
  | cons i rest ih =>
    intro loads brs td hinv hnd hval hnod htd
    obtain ⟨l, hsome, hconn⟩ := hval i (List.mem_cons_self i rest)
    have huntr : isTrippedB brs l.name = false := hinv i l hsome hconn
    rw [shedWalk_cons_some p i rest loads brs td hsome]
    have hnoconn : ∀ (j : Nat) (l2 : Load),
        (loads.set i (discOf l))[j]? = some l2 → l2.name = l.name → l2.connected = false := by
      intro j l2 hj hname
      rw [List.getElem?_set] at hj
      by_cases hij : i = j
      · rw [if_pos hij, if_pos (by rw [hij] at hsome ⊢; exact getElem?_isSome_of_eq_some hsome)] at hj
        have : l2 = discOf l := by
          injection hj with hh
          exact hh.symm
        rw [this]
        rfl
      · rw [if_neg hij] at hj
        exact absurd (namesNodup_idx_inj hnd hj hsome hname) (fun h => hij h.symm)
    have hd2 : demandOf (loads.set i (discOf l)) brs = demandOf loads brs - l.demand :=
      demandOf_set_disc loads i l brs hsome hconn huntr
    have hd3 : demandOf (loads.set i (discOf l)) (setTripped brs l.name true) =
        demandOf (loads.set i (discOf l)) brs :=
      demandOf_setTripped_true (loads.set i (discOf l)) brs l.name hnoconn
    have hinv2 : InvLB (loads.set i (discOf l)) (setTripped brs l.name true) := by
      intro j l2 hj hc2
      rw [List.getElem?_set] at hj
      by_cases hij : i = j
      · rw [if_pos hij,
          if_pos (by rw [hij] at hsome ⊢; exact getElem?_isSome_of_eq_some hsome)] at hj
        have : l2 = discOf l := by
          injection hj with hh
          exact hh.symm
        rw [this] at hc2
        exact absurd hc2 (by simp [discOf])
      · rw [if_neg hij] at hj
        have hne : l2.name ≠ l.name := by
          intro heq
          exact hij (namesNodup_idx_inj hnd hj hsome heq).symm
        rw [isTrippedB_setTripped, if_neg (fun h : l.name = l2.name => hne h.symm)]
        exact hinv j l2 hj hc2
    have hnd2 : NamesNodup (loads.set i (discOf l)) :=
      namesNodup_set (discOf l) hsome rfl hnd
    by_cases hstop : td - l.demand ≤ p
    · rw [if_pos hstop]
      refine ⟨?_, hinv2⟩
      show td - l.demand = demandOf (loads.set i (discOf l)) (setTripped brs l.name true)
      rw [hd3, hd2, htd]
    · rw [if_neg hstop]
      have hnini : i ∉ rest := (List.nodup_cons.mp hnod).1
      have hval2 : ∀ i2 ∈ rest,
          ∃ l2, (loads.set i (discOf l))[i2]? = some l2 ∧ l2.connected = true := by
        intro i2 h2
        obtain ⟨l2, hl2, hc2⟩ := hval i2 (List.mem_cons_of_mem i h2)
        refine ⟨l2, ?_, hc2⟩
        rw [List.getElem?_set, if_neg (fun h : i = i2 => hnini (h ▸ h2))]
        exact hl2
      have htd2 : td - l.demand =
          demandOf (loads.set i (discOf l)) (setTripped brs l.name true) := by
        rw [hd3, hd2, htd]
      exact ih (loads.set i (discOf l)) (setTripped brs l.name true) (td - l.demand)
        hinv2 hnd2 hval2 (List.nodup_cons.mp hnod).2 htd2

theorem restoreWalk_conserve (p : ℚ) (brs : Breakers) :
    ∀ (idxs : List Nat) (loads : List Load) (td : ℚ),
      InvLB loads brs →
      (∀ i ∈ idxs, ∃ l, loads[i]? = some l ∧ l.connected = false ∧
        isTrippedB brs l.name = false) →
      idxs.Nodup → td = demandOf loads brs →
      (restoreWalk p idxs loads td).totalDemand =
          demandOf (restoreWalk p idxs loads td).loads brs ∧
        InvLB (restoreWalk p idxs loads td).loads brs := by
  intro idxs
  induction idxs with
  | nil =>
    intro loads td hinv _ _ htd
    rw [restoreWalk_nil]
    exact ⟨htd, hinv⟩
  | cons i rest ih =>
    intro loads td hinv hval hnod htd
    obtain ⟨l, hsome, hconn, huntr⟩ := hval i (List.mem_cons_self i rest)
    rw [restoreWalk_cons_some p i rest loads td hsome]
    by_cases hfit : td + l.demand ≤ p
    · rw [if_pos hfit]
      have hinv2 : InvLB (loads.set i (connOf l)) brs := by
        intro j l2 hj hc2
        rw [List.getElem?_set] at hj
        by_cases hij : i = j
        · rw [if_pos hij,
            if_pos (by rw [hij] at hsome ⊢; exact getElem?_isSome_of_eq_some hsome)] at hj
          have : l2 = connOf l := by
            injection hj with hh
            exact hh.symm
          rw [this]
          exact huntr
        · rw [if_neg hij] at hj
          exact hinv j l2 hj hc2
      have hnini : i ∉ rest := (List.nodup_cons.mp hnod).1
      have hval2 : ∀ i2 ∈ rest,
          ∃ l2, (loads.set i (connOf l))[i2]? = some l2 ∧ l2.connected = false ∧
            isTrippedB brs l2.name = false := by
        intro i2 h2
        obtain ⟨l2, hl2, hc2, ht2⟩ := hval i2 (List.mem_cons_of_mem i h2)
        refine ⟨l2, ?_, hc2, ht2⟩
        rw [List.getElem?_set, if_neg (fun h : i = i2 => hnini (h ▸ h2))]
        exact hl2
      have htd2 : td + l.demand = demandOf (loads.set i (connOf l)) brs := by
        rw [demandOf_set_conn loads i l brs hsome hconn huntr, htd]
      exact ih (loads.set i (connOf l)) (td + l.demand)
        hinv2 hval2 (List.nodup_cons.mp hnod).2 htd2
    · rw [if_neg hfit]
      exact ih loads td hinv
        (fun i2 h2 => hval i2 (List.mem_cons_of_mem i h2))
        (List.nodup_cons.mp hnod).2 htd

theorem simulateWith_deficit (gen : Nat → ℚ) (so ro : List Nat) (st : GridState)
    (h : powerAfter gen st < demand0 st) :
    simulateWith gen so ro st =
      (⟨resampleSources gen st.breakers st.sources,
        (shedWalk (powerAfter gen st) so st.loads st.breakers (demand0 st)).loads,
        (shedWalk (powerAfter gen st) so st.loads st.breakers (demand0 st)).breakers,
        st.faults⟩,
       ⟨powerAfter gen st,
        (shedWalk (powerAfter gen st) so st.loads st.breakers (demand0 st)).totalDemand,
        (shedWalk (powerAfter gen st) so st.loads st.breakers (demand0 st)).shed, []⟩) := by
  unfold simulateWith
  unfold powerAfter demand0 at h
  rw [if_pos h]
  rfl

theorem simulateWith_surplus (gen : Nat → ℚ) (so ro : List Nat) (st : GridState)
    (h : ¬ powerAfter gen st < demand0 st) :
    simulateWith gen so ro st =
      (⟨resampleSources gen st.breakers st.sources,
        (restoreWalk (powerAfter gen st) ro st.loads (demand0 st)).loads,
        st.breakers, st.faults⟩,
       ⟨powerAfter gen st,
        (restoreWalk (powerAfter gen st) ro st.loads (demand0 st)).totalDemand,
        [], (restoreWalk (powerAfter gen st) ro st.loads (demand0 st)).reconnected⟩) := by
  unfold simulateWith
  unfold powerAfter demand0 at h
  rw [if_neg h]
  rfl

theorem shedWalk_tripped_mono (p : ℚ) :
    ∀ (idxs : List Nat) (loads : List Load) (brs : Breakers) (td : ℚ) (n : String),
      isTrippedB brs n = true →
      isTrippedB (shedWalk p idxs loads brs td).breakers n = true := by
  intro idxs
  induction idxs with
  | nil => intro loads brs td n h; rw [shedWalk_nil]; exact h
  | cons i rest ih =>
    intro loads brs td n h
    match hsome : loads[i]? with
    | none =>
      have : shedWalk p (i :: rest) loads brs td = shedWalk p rest loads brs td := by
        simp only [shedWalk, hsome]
      rw [this]
      exact ih loads brs td n h
    | some l =>
      rw [shedWalk_cons_some p i rest loads brs td hsome]
      have hset : isTrippedB (setTripped brs l.name true) n = true := by
        rw [isTrippedB_setTripped]
        by_cases hln : l.name = n
        · rw [if_pos hln]
        · rw [if_neg hln]; exact h
      by_cases hstop : td - l.demand ≤ p
      · rw [if_pos hstop]
        exact hset
      · rw [if_neg hstop]
        exact ih _ _ _ n hset

theorem stableShedOrder_valid (st : GridState) : ValidShedOrder st (stableShedOrder st) := by
  constructor
  · exact List.perm_insertionSort _ _
  · haveI : IsTotal Nat (fun i j => priAt st.loads j ≤ priAt st.loads i) :=
      ⟨fun a b => le_total _ _⟩
    haveI : IsTrans Nat (fun i j => priAt st.loads j ≤ priAt st.loads i) :=
      ⟨fun _ _ _ h1 h2 => le_trans h2 h1⟩
    exact List.sorted_insertionSort _ _

theorem stableRestoreOrder_valid (st : GridState) :
    ValidRestoreOrder st (stableRestoreOrder st) := by
  constructor
  · exact List.perm_insertionSort _ _
  · haveI : IsTotal Nat (fun i j => priAt st.loads i ≤ priAt st.loads j) :=
      ⟨fun a b => le_total _ _⟩
    haveI : IsTrans Nat (fun i j => priAt st.loads i ≤ priAt st.loads j) :=
      ⟨fun _ _ _ h1 h2 => le_trans h1 h2⟩
    exact List.sorted_insertionSort _ _

/-- C1 (amended): for every deficit cycle and every walk order consistent
with the `std::sort` contract (a permutation of the connected-load indices,
descending by priority — the order of equal-priority candidates being
unspecified), the engine walks a prefix of that order, disconnecting each
load, tripping its breaker and subtracting its demand from `totalDemand`,
and stops as soon as `totalPower >= totalDemand`. -/
theorem c1_deficit_shedding (gen : Nat → ℚ) (so ro : List Nat) (st : GridState)
    (hvalid : ValidShedOrder st so) (hdef : powerAfter gen st < demand0 st) :
    ShedOutcome st so (simulateWith gen so ro st) := by
  have hval : ∀ i ∈ so, i < st.loads.length := by
    intro i hi
    have hmem : i ∈ connectedIdxs st.loads := hvalid.1.mem_iff.mp hi
    obtain ⟨l, hl, _⟩ := mem_connectedIdxs.mp hmem
    exact getElem?_isSome_of_eq_some hl
  obtain ⟨k, hk, heq, hc1, hc2⟩ :=
    shedWalk_spec (powerAfter gen st) so st.loads st.breakers (demand0 st) hval
  rw [simulateWith_deficit gen so ro st hdef]
  refine ⟨k, hk, ?_, ?_, ?_, ?_, ?_, ?_, rfl, rfl, ?_⟩
  · show (shedWalk (powerAfter gen st) so st.loads st.breakers (demand0 st)).shed = so.take k
    rw [heq]
  · intro i hi
    have hiso : i ∈ so := List.take_subset k so hi
    have hilt : i < st.loads.length := hval i hiso
    have hsome : st.loads[i]? = some st.loads[i] := List.getElem?_eq_getElem hilt
    refine ⟨st.loads[i], hsome, ?_, ?_⟩
    · show (shedWalk (powerAfter gen st) so st.loads st.breakers (demand0 st)).loads[i]? = _
      rw [heq]
      show (shedMarks st.loads (so.take k))[i]? = _
      rw [shedMarks_getElem?, if_pos hi, hsome]
      rfl
    · show isTrippedB
        (shedWalk (powerAfter gen st) so st.loads st.breakers (demand0 st)).breakers
        st.loads[i].name = true
      rw [heq]
      show isTrippedB (tripNames st.breakers (namesAt st.loads (so.take k)))
        st.loads[i].name = true
      rw [isTrippedB_tripNames]
      have hmem2 : st.loads[i].name ∈ namesAt st.loads (so.take k) := by
        unfold namesAt
        refine List.mem_map.mpr ⟨i, hi, ?_⟩
        unfold nameAt
        rw [hsome]
        rfl
      rw [if_pos hmem2]
  · intro j hj
    show (shedWalk (powerAfter gen st) so st.loads st.breakers (demand0 st)).loads[j]? = _
    rw [heq]
    show (shedMarks st.loads (so.take k))[j]? = _
    rw [shedMarks_getElem?, if_neg hj]
  · show (shedWalk (powerAfter gen st) so st.loads st.breakers (demand0 st)).totalDemand = _
    rw [heq]
  · intro j hj0 hjk
    exact hc1 j hj0 hjk
  · intro hklen
    exact hc2 hklen
  · show (shedWalk (powerAfter gen st) so st.loads st.breakers (demand0 st)).breakers = _
    rw [heq]

/-- C2: for every surplus/balanced cycle and every walk order consistent with
the `std::sort` contract (a permutation of the disconnected-untripped
candidate indices, ascending by priority), each candidate is reconnected and
its demand added to `totalDemand` exactly when
`totalPower >= totalDemand + demand` holds at that point; a candidate that
does not fit is skipped, not retried in the same pass, and remains
disconnected; breakers and faults are untouched. -/
theorem c2_surplus_reconnection (gen : Nat → ℚ) (so ro : List Nat) (st : GridState)
    (hvalid : ValidRestoreOrder st ro) (hsur : ¬ powerAfter gen st < demand0 st) :
    RestoreOutcome st ro (simulateWith gen so ro st) := by
  have hcand : ∀ i ∈ ro, ∃ l, st.loads[i]? = some l ∧ l.connected = false ∧
      isTrippedB st.breakers l.name = false := by
    intro i hi
    exact mem_restoreCandIdxs.mp (hvalid.1.mem_iff.mp hi)
  have hval : ∀ i ∈ ro, i < st.loads.length := by
    intro i hi
    obtain ⟨l, hl, _, _⟩ := hcand i hi
    exact getElem?_isSome_of_eq_some hl
  rw [simulateWith_surplus gen so ro st hsur]
  rw [restoreWalk_spec (powerAfter gen st) ro st.loads (demand0 st) hval]
  refine ⟨rfl, ?_, ?_, rfl, rfl, rfl, rfl⟩
  · intro i hi
    have hiro : i ∈ ro :=
      (specGreedyAdmit_sublist (powerAfter gen st) st.loads ro (demand0 st)).subset hi
    obtain ⟨l, hl, hc, ht⟩ := hcand i hiro
    refine ⟨l, hl, hc, ht, ?_⟩
    show (restoreMarks st.loads
      (specGreedyAdmit (powerAfter gen st) st.loads (demand0 st) ro))[i]? = _
    rw [restoreMarks_getElem?, if_pos hi, hl]
    rfl
  · intro j hj
    show (restoreMarks st.loads
      (specGreedyAdmit (powerAfter gen st) st.loads (demand0 st) ro))[j]? = _
    rw [restoreMarks_getElem?, if_neg hj]

/-- C3 (amended): the cycle procedure preserves the no-contradictory-state
invariant: when the registered load names are pairwise distinct and no load is
both connected and breaker-tripped before the cycle, none is after, for every
walk order consistent with the `std::sort` contract.  (From an arbitrary
state the claim fails: a load left connected with a tripped breaker by manual
fault injection survives a surplus cycle untouched.) -/
theorem c3_cycle_preserves_invariant (gen : Nat → ℚ) (so ro : List Nat)
    (st : GridState) (hnd : NamesNodup st.loads) (hinv : InvLB st.loads st.breakers)
    (hso : ValidShedOrder st so) (hro : ValidRestoreOrder st ro) :
    InvLB (simulateWith gen so ro st).1.loads (simulateWith gen so ro st).1.breakers := by
  by_cases hdef : powerAfter gen st < demand0 st
  · rw [simulateWith_deficit gen so ro st hdef]
    have hval : ∀ i ∈ so, ∃ l, st.loads[i]? = some l ∧ l.connected = true := by
      intro i hi
      exact mem_connectedIdxs.mp (hso.1.mem_iff.mp hi)
    have hnodup : so.Nodup := (hso.1.nodup_iff).mpr (connectedIdxs_nodup st.loads)
    exact (shedWalk_conserve (powerAfter gen st) so st.loads st.breakers (demand0 st)
      hinv hnd hval hnodup rfl).2
  · rw [simulateWith_surplus gen so ro st hdef]
    have hval : ∀ i ∈ ro, ∃ l, st.loads[i]? = some l ∧ l.connected = false ∧
        isTrippedB st.breakers l.name = false := by
      intro i hi
      exact mem_restoreCandIdxs.mp (hro.1.mem_iff.mp hi)
    have hnodup : ro.Nodup :=
      (hro.1.nodup_iff).mpr (restoreCandIdxs_nodup st.loads st.breakers)
    exact (restoreWalk_conserve (powerAfter gen st) st.breakers ro st.loads (demand0 st)
      hinv hval hnodup rfl).2

/-- C4 (amended): conservation holds for cycles run from well-formed states:
when the registered load names are pairwise distinct and no load is both
connected and breaker-tripped beforehand, the `totalDemand` the cycle reports
equals the sum of `demandKw` over the loads that are breaker-untripped and
connected afterwards, for every walk order consistent with the `std::sort`
contract.  (From an arbitrary state the claim fails: the deficit walk
subtracts the demand of a connected breaker-tripped candidate that was never
counted.) -/
theorem c4_cycle_conservation (gen : Nat → ℚ) (so ro : List Nat)
    (st : GridState) (hnd : NamesNodup st.loads) (hinv : InvLB st.loads st.breakers)
    (hso : ValidShedOrder st so) (hro : ValidRestoreOrder st ro) :
    (simulateWith gen so ro st).2.totalDemand =
      demandOf (simulateWith gen so ro st).1.loads
        (simulateWith gen so ro st).1.breakers := by
  by_cases hdef : powerAfter gen st < demand0 st
  · rw [simulateWith_deficit gen so ro st hdef]
    have hval : ∀ i ∈ so, ∃ l, st.loads[i]? = some l ∧ l.connected = true := by
      intro i hi
      exact mem_connectedIdxs.mp (hso.1.mem_iff.mp hi)
    have hnodup : so.Nodup := (hso.1.nodup_iff).mpr (connectedIdxs_nodup st.loads)
    exact (shedWalk_conserve (powerAfter gen st) so st.loads st.breakers (demand0 st)
      hinv hnd hval hnodup rfl).1
  · rw [simulateWith_surplus gen so ro st hdef]
    have hval : ∀ i ∈ ro, ∃ l, st.loads[i]? = some l ∧ l.connected = false ∧
        isTrippedB st.breakers l.name = false := by
      intro i hi
      exact mem_restoreCandIdxs.mp (hro.1.mem_iff.mp hi)
    have hnodup : ro.Nodup :=
      (hro.1.nodup_iff).mpr (restoreCandIdxs_nodup st.loads st.breakers)
    exact (restoreWalk_conserve (powerAfter gen st) st.breakers ro st.loads (demand0 st)
      hinv hval hnodup rfl).1

theorem simulateWith_tripped_mono (gen : Nat → ℚ) (so ro : List Nat)
    (st : GridState) (n : String) (h : isTrippedB st.breakers n = true) :
    isTrippedB (simulateWith gen so ro st).1.breakers n = true := by
  by_cases hdef : powerAfter gen st < demand0 st
  · rw [simulateWith_deficit gen so ro st hdef]
    exact shedWalk_tripped_mono (powerAfter gen st) so st.loads st.breakers (demand0 st) n h
  · rw [simulateWith_surplus gen so ro st hdef]
    exact h

/-- C9: the cycle procedure never resets a breaker — for every engine state
and every walk order, a breaker tripped before the cycle is still tripped
after it. -/
theorem c9_cycle_never_resets (gen : Nat → ℚ) (so ro : List Nat)
    (st : GridState) (n : String) (h : isTrippedB st.breakers n = true) :
    isTrippedB (simulateWith gen so ro st).1.breakers n = true :=
  simulateWith_tripped_mono gen so ro st n h

/-- C6: for every in-range index into the fault set's iteration order, fault
resolution picks the entry at that position, resets exactly that breaker,
erases exactly that entry, and immediately re-runs the cycle procedure on a
state whose loads are untouched — resolution itself reconnects nothing. -/
theorem c6_resolve_fault (gen : Nat → ℚ) (so ro : List Nat) (st : GridState)
    (i : Nat) (h : i < st.faults.length) :
    ∃ name, st.faults[i]? = some name ∧
      resolveManualFault gen so ro st i =
        (simulateWith gen so ro
          ⟨st.sources, st.loads, setTripped st.breakers name false,
           st.faults.eraseIdx i⟩).1 ∧
      isTrippedB (setTripped st.breakers name false) name = false ∧
      (∀ m, m ≠ name →
        isTrippedB (setTripped st.breakers name false) m = isTrippedB st.breakers m) ∧
      (st.faults.eraseIdx i).length + 1 = st.faults.length ∧
      (⟨st.sources, st.loads, setTripped st.breakers name false,
        st.faults.eraseIdx i⟩ : GridState).loads = st.loads := by
  have hsome : st.faults[i]? = some st.faults[i] := List.getElem?_eq_getElem h
  refine ⟨st.faults[i], hsome, ?_, ?_, ?_, ?_, rfl⟩
  · unfold resolveManualFault
    rw [hsome]
    rfl
  · rw [isTrippedB_setTripped, if_pos rfl]
  · intro m hm
    rw [isTrippedB_setTripped, if_neg (fun hh => hm hh.symm)]
  · rw [List.length_eraseIdx_of_lt h]
    omega

/-- C7: `addSource` appends the source, emplaces a breaker for its name, and
immediately runs a full simulation cycle on the registered state; `addLoad`
appends the load and emplaces a breaker but runs no cycle, leaving the
previously registered loads, every breaker's tripped state, the sources and
the fault set unchanged. -/
theorem c7_registration_effects (gen : Nat → ℚ) (so ro : List Nat)
    (st : GridState) (s : Source) (l : Load) :
    addSource gen so ro st s =
      (simulateWith gen so ro
        ⟨st.sources ++ [s], st.loads, emplaceBreaker st.breakers s.name,
         st.faults⟩).1 ∧
    (addLoad st l).loads = st.loads ++ [l] ∧
    (addLoad st l).sources = st.sources ∧
    (addLoad st l).faults = st.faults ∧
    (addLoad st l).breakers = emplaceBreaker st.breakers l.name ∧
    (∀ n, isTrippedB (addLoad st l).breakers n = isTrippedB st.breakers n) ∧
    (∀ j : Nat, j < st.loads.length → (addLoad st l).loads[j]? = st.loads[j]?) ∧
    (addLoad st l).loads[st.loads.length]? = some l := by
  refine ⟨rfl, rfl, rfl, rfl, rfl, fun n => isTrippedB_emplace st.breakers l.name n,
    ?_, ?_⟩
  · intro j hj
    show (st.loads ++ [l])[j]? = st.loads[j]?
    rw [List.getElem?_append, if_pos hj]
  · show (st.loads ++ [l])[st.loads.length]? = some l
    rw [List.getElem?_append, if_neg (lt_irrefl _)]
    simp

/-- C8 (in-range part): for an in-range index, manual disconnect and
reconnect flip only that load's connectivity flag and touch neither any
breaker nor the fault set nor the sources nor any other load.  (The
out-of-bounds part of the claim is a code bug: the C++ performs unchecked
`loads[index]` / `std::advance` accesses — undefined behaviour, with no error
reported to the caller.) -/
theorem c8_manual_toggle_inrange (st : GridState) (i : Nat)
    (h : i < st.loads.length) :
    ∃ l, st.loads[i]? = some l ∧
      disconnectLoad st i = { st with loads := st.loads.set i (discOf l) } ∧
      reconnectLoad st i = { st with loads := st.loads.set i (connOf l) } ∧
      (disconnectLoad st i).breakers = st.breakers ∧
      (disconnectLoad st i).faults = st.faults ∧
      (disconnectLoad st i).sources = st.sources ∧
      (reconnectLoad st i).breakers = st.breakers ∧
      (reconnectLoad st i).faults = st.faults ∧
      (reconnectLoad st i).sources = st.sources ∧
      (∀ j : Nat, j ≠ i → (disconnectLoad st i).loads[j]? = st.loads[j]?) ∧
      (∀ j : Nat, j ≠ i → (reconnectLoad st i).loads[j]? = st.loads[j]?) := by
  have hsome : st.loads[i]? = some st.loads[i] := List.getElem?_eq_getElem h
  have hd : disconnectLoad st i = { st with loads := st.loads.set i (discOf st.loads[i]) } := by
    unfold disconnectLoad
    rw [hsome]
  have hr : reconnectLoad st i = { st with loads := st.loads.set i (connOf st.loads[i]) } := by
    unfold reconnectLoad
    rw [hsome]
  refine ⟨st.loads[i], hsome, hd, hr, by rw [hd], by rw [hd], by rw [hd],
    by rw [hr], by rw [hr], by rw [hr], ?_, ?_⟩
  · intro j hj
    rw [hd]
    show (st.loads.set i (discOf st.loads[i]))[j]? = st.loads[j]?
    rw [List.getElem?_set, if_neg (fun hh => hj hh.symm)]
  · intro j hj
    rw [hr]
    show (st.loads.set i (connOf st.loads[i]))[j]? = st.loads[j]?
    rw [List.getElem?_set, if_neg (fun hh => hj hh.symm)]

theorem findBreaker_isSome_of_tripped {brs : Breakers} {n : String}
    (h : isTrippedB brs n = true) : (findBreaker brs n).isSome = true := by
  unfold isTrippedB at h
  match h2 : findBreaker brs n with
  | some b => rfl
  | none => rw [h2] at h; simp at h

theorem demandOf_append_single (loads : List Load) (l : Load) (brs : Breakers) :
    demandOf (loads ++ [l]) brs =
      demandOf loads brs +
        (if (!isTrippedB brs l.name && l.connected) = true then l.demand else 0) := by
  unfold demandOf
  rw [List.filter_append, List.map_append, List.sum_append]
  congr 1
  rw [List.filter_cons]
  by_cases hp : (!isTrippedB brs l.name && l.connected) = true
  · rw [if_pos hp, if_pos hp]
    simp
  · rw [if_neg hp, if_neg hp]
    simp

theorem resampleFrom_append (gen : Nat → ℚ) (brs : Breakers) :
    ∀ (l1 l2 : List Source) (i : Nat),
      resampleFrom gen brs i (l1 ++ l2) =
        resampleFrom gen brs i l1 ++ resampleFrom gen brs (i + l1.length) l2 := by
  intro l1
  induction l1 with
  | nil => intro l2 i; simp [resampleFrom]
  | cons s tl ih =>
    intro l2 i
    rw [List.cons_append]
    show (if !isTrippedB brs s.name && s.solar && s.connected then
        { s with output := gen i } else s) :: resampleFrom gen brs (i + 1) (tl ++ l2) =
      ((if !isTrippedB brs s.name && s.solar && s.connected then
        { s with output := gen i } else s) :: resampleFrom gen brs (i + 1) tl) ++
        resampleFrom gen brs (i + (s :: tl).length) l2
    rw [List.cons_append, ih l2 (i + 1)]
    have harith : i + 1 + tl.length = i + (s :: tl).length := by
      rw [List.length_cons]
      omega
    rw [harith]

theorem totalPowerOf_append_single (ss : List Source) (s : Source) (brs : Breakers) :
    totalPowerOf (ss ++ [s]) brs =
      totalPowerOf ss brs +
        (if (!isTrippedB brs s.name && s.connected) = true then s.output else 0) := by
  unfold totalPowerOf
  rw [List.filter_append, List.map_append, List.sum_append]
  congr 1
  rw [List.filter_cons]
  by_cases hp : (!isTrippedB brs s.name && s.connected) = true
  · rw [if_pos hp, if_pos hp]
    simp
  · rw [if_neg hp, if_neg hp]
    simp

/-- C10: registering a component under a name that already has a breaker
entry leaves that breaker — including a tripped state — unchanged
(`std::map::emplace` is a no-op on collision), and a component registered
under a tripped name contributes nothing to the cycle's aggregates: the new
load is not counted in `totalDemand` and the new source adds nothing to
`totalPower`. -/
theorem c10_collision_keeps_breaker (gen : Nat → ℚ) (st : GridState)
    (s : Source) (l : Load)
    (hl : isTrippedB st.breakers l.name = true)
    (hs : isTrippedB st.breakers s.name = true) :
    (addLoad st l).breakers = st.breakers ∧
    emplaceBreaker st.breakers s.name = st.breakers ∧
    demandOf (addLoad st l).loads (addLoad st l).breakers = demandOf st.loads st.breakers ∧
    totalPowerOf (resampleSources gen st.breakers (st.sources ++ [s])) st.breakers =
      totalPowerOf (resampleSources gen st.breakers st.sources) st.breakers := by
  have hemL : emplaceBreaker st.breakers l.name = st.breakers :=
    emplaceBreaker_of_isSome st.breakers l.name (findBreaker_isSome_of_tripped hl)
  have hemS : emplaceBreaker st.breakers s.name = st.breakers :=
    emplaceBreaker_of_isSome st.breakers s.name (findBreaker_isSome_of_tripped hs)
  refine ⟨?_, hemS, ?_, ?_⟩
  · show emplaceBreaker st.breakers l.name = st.breakers
    exact hemL
  · show demandOf (st.loads ++ [l]) (emplaceBreaker st.breakers l.name) =
      demandOf st.loads st.breakers
    rw [hemL, demandOf_append_single]
    rw [hl]
    simp
  · unfold resampleSources
    rw [resampleFrom_append]
    have hres1 : resampleFrom gen st.breakers (0 + st.sources.length) [s] = [s] := by
      show (if !isTrippedB st.breakers s.name && s.solar && s.connected then
          { s with output := gen (0 + st.sources.length) } else s) ::
        resampleFrom gen st.breakers (0 + st.sources.length + 1) [] = [s]
      rw [hs]
      rfl
    rw [hres1, totalPowerOf_append_single, hs]
    simp

theorem simulateWith_faults (gen : Nat → ℚ) (so ro : List Nat) (st : GridState) :
    (simulateWith gen so ro st).1.faults = st.faults := by
  by_cases hdef : powerAfter gen st < demand0 st
  · rw [simulateWith_deficit gen so ro st hdef]
  · rw [simulateWith_surplus gen so ro st hdef]

theorem insertFault_mem :
    ∀ (fs : List String) (n m : String), m ∈ insertFault fs n → m = n ∨ m ∈ fs := by
  intro fs
  induction fs with
  | nil =>
    intro n m h
    simp [insertFault] at h
    exact Or.inl h
  | cons x tl ih =>
    intro n m h
    unfold insertFault at h
    by_cases h1 : n = x
    · rw [if_pos h1] at h
      exact Or.inr h
    · rw [if_neg h1] at h
      by_cases h2 : n < x
      · rw [if_pos h2] at h
        rcases List.mem_cons.mp h with h3 | h3
        · exact Or.inl h3
        · exact Or.inr h3
      · rw [if_neg h2] at h
        rcases List.mem_cons.mp h with h3 | h3
        · exact Or.inr (h3 ▸ List.mem_cons_self x tl)
        · rcases ih n m h3 with h4 | h4
          · exact Or.inl h4
          · exact Or.inr (List.mem_cons_of_mem x h4)

theorem insertFault_pairwise :
    ∀ (fs : List String) (n : String), fs.Pairwise (· < ·) →
      (insertFault fs n).Pairwise (· < ·) := by
  intro fs
  induction fs with
  | nil =>
    intro n _
    simp [insertFault]
  | cons x tl ih =>
    intro n hp
    obtain ⟨hx, htl⟩ := List.pairwise_cons.mp hp
    unfold insertFault
    by_cases h1 : n = x
    · rw [if_pos h1]
      exact hp
    · rw [if_neg h1]
      by_cases h2 : n < x
      · rw [if_pos h2]
        refine List.pairwise_cons.mpr ⟨?_, hp⟩
        intro y hy
        rcases List.mem_cons.mp hy with h3 | h3
        · exact h3 ▸ h2
        · exact lt_trans h2 (hx y h3)
      · rw [if_neg h2]
        have hxn : x < n :=
          lt_of_le_of_ne (le_of_not_lt h2) (fun h => h1 h.symm)
        refine List.pairwise_cons.mpr ⟨?_, ih n htl⟩
        intro y hy
        rcases insertFault_mem tl n y hy with h3 | h3
        · exact h3 ▸ hxn
        · exact hx y h3

theorem pairwiseLt_nodup (fs : List String) (h : fs.Pairwise (· < ·)) : fs.Nodup :=
  h.imp (fun hlt => ne_of_lt hlt)

theorem not_mem_eraseIdx_of_nodup :
    ∀ (fs : List String) (i : Nat) (a : String),
      fs.Nodup → fs[i]? = some a → a ∉ fs.eraseIdx i := by
  intro fs
  induction fs with
  | nil =>
    intro i a _ h
    simp at h
  | cons x tl ih =>
    intro i a hnd h
    match i with
    | 0 =>
      simp only [List.getElem?_cons_zero, Option.some.injEq] at h
      show a ∉ tl
      exact h ▸ (List.nodup_cons.mp hnd).1
    | j + 1 =>
      rw [List.getElem?_cons_succ] at h
      show a ∉ x :: tl.eraseIdx j
      intro hmem
      rcases List.mem_cons.mp hmem with h3 | h3
      · exact (List.nodup_cons.mp hnd).1
          (h3 ▸ List.mem_iff_getElem?.mpr ⟨j, h⟩)
      · exact ih j a (List.nodup_cons.mp hnd).2 h h3

theorem disconnectLoad_breakers (st : GridState) (i : Nat) :
    (disconnectLoad st i).breakers = st.breakers := by
  unfold disconnectLoad
  split <;> rfl

theorem disconnectLoad_faults (st : GridState) (i : Nat) :
    (disconnectLoad st i).faults = st.faults := by
  unfold disconnectLoad
  split <;> rfl

theorem reconnectLoad_breakers (st : GridState) (i : Nat) :
    (reconnectLoad st i).breakers = st.breakers := by
  unfold reconnectLoad
  split <;> rfl

theorem reconnectLoad_faults (st : GridState) (i : Nat) :
    (reconnectLoad st i).faults = st.faults := by
  unfold reconnectLoad
  split <;> rfl

theorem inject_wf_aux (st1 : GridState) (nm : String)
    (ih : (∀ n ∈ st1.faults, isTrippedB st1.breakers n = true) ∧
      st1.faults.Pairwise (· < ·)) :
    (∀ n ∈ insertFault st1.faults nm,
        isTrippedB (setTripped st1.breakers nm true) n = true) ∧
      (insertFault st1.faults nm).Pairwise (· < ·) := by
  refine ⟨?_, insertFault_pairwise st1.faults nm ih.2⟩
  intro n hn
  rw [isTrippedB_setTripped]
  rcases insertFault_mem st1.faults nm n hn with h1 | h1
  · rw [if_pos h1.symm]
  · by_cases h2 : nm = n
    · rw [if_pos h2]
    · rw [if_neg h2]
      exact ih.1 n h1

theorem reachable_faults_wf :
    ∀ st, Reachable st →
      (∀ n ∈ st.faults, isTrippedB st.breakers n = true) ∧
        st.faults.Pairwise (· < ·) := by
  intro st h
  induction h with
  | init =>
    refine ⟨?_, ?_⟩
    · intro n hn
      simp [initState] at hn
    · simp [initState]
  | addSourceStep gen so ro s hr ih =>
    rename_i st1
    have hreg : addSource gen so ro st1 s =
        (simulateWith gen so ro
          ⟨st1.sources ++ [s], st1.loads, emplaceBreaker st1.breakers s.name,
           st1.faults⟩).1 := rfl
    rw [hreg, simulateWith_faults]
    refine ⟨?_, ih.2⟩
    intro n hn
    apply simulateWith_tripped_mono
    show isTrippedB (emplaceBreaker st1.breakers s.name) n = true
    rw [isTrippedB_emplace]
    exact ih.1 n hn
  | addLoadStep l hr ih =>
    rename_i st1
    refine ⟨?_, ih.2⟩
    intro n hn
    show isTrippedB (emplaceBreaker st1.breakers l.name) n = true
    rw [isTrippedB_emplace]
    exact ih.1 n hn
  | simulateStep gen so ro hr ih =>
    rename_i st1
    rw [simulateWith_faults]
    refine ⟨?_, ih.2⟩
    intro n hn
    exact simulateWith_tripped_mono gen so ro st1 n (ih.1 n hn)
  | injectStep sel hr hok ih =>
    rename_i st1
    exact inject_wf_aux st1 _ ih
  | resolveStep gen so ro i hr hlt ih =>
    rename_i st1
    have hsome : st1.faults[i]? = some st1.faults[i] := List.getElem?_eq_getElem hlt
    have hname : (st1.faults[i]?).getD "" = st1.faults[i] := by rw [hsome]; rfl
    have hstep : resolveManualFault gen so ro st1 i =
        (simulateWith gen so ro
          ⟨st1.sources, st1.loads, setTripped st1.breakers st1.faults[i] false,
           st1.faults.eraseIdx i⟩).1 := by
      unfold resolveManualFault
      rw [hname]
    rw [hstep, simulateWith_faults]
    refine ⟨?_, List.Pairwise.sublist (List.eraseIdx_sublist st1.faults i) ih.2⟩
    intro n hn
    apply simulateWith_tripped_mono
    show isTrippedB (setTripped st1.breakers st1.faults[i] false) n = true
    have hn2 : n ∈ st1.faults.eraseIdx i := hn
    have hne : st1.faults[i] ≠ n := by
      intro heq
      exact not_mem_eraseIdx_of_nodup st1.faults i st1.faults[i]
        (pairwiseLt_nodup st1.faults ih.2) hsome (by rw [heq]; exact hn2)
    rw [isTrippedB_setTripped, if_neg hne]
    exact ih.1 n ((List.eraseIdx_sublist st1.faults i).subset hn)
  | disconnectStep i hr hlt ih =>
    rename_i st1
    rw [disconnectLoad_faults, disconnectLoad_breakers]
    exact ih
  | reconnectStep i hr hlt ih =>
    rename_i st1
    rw [reconnectLoad_faults, reconnectLoad_breakers]
    exact ih

/-- C5: in every reachable engine state, every name in the fault set has a
tripped breaker; the converse fails — automatic shedding trips breakers
without recording faults, witnessed by a reachable state holding a tripped
breaker whose name is not in the fault set. -/
theorem c5_faults_imply_tripped :
    (∀ st, Reachable st → ∀ n ∈ st.faults, isTrippedB st.breakers n = true) ∧
    (∃ st, Reachable st ∧ ∃ n, isTrippedB st.breakers n = true ∧ n ∉ st.faults) := by
  constructor
  · intro st h
    exact (reachable_faults_wf st h).1
  · refine ⟨(simulateWith (fun _ => 0) [0] []
        (addLoad initState ⟨"A", 10, true, 5⟩)).1,
      Reachable.simulateStep (fun _ => 0) [0] []
        (Reachable.addLoadStep ⟨"A", 10, true, 5⟩ Reachable.init),
      "A", ?_, ?_⟩
    · decide
    · decide

theorem c1_witness :
    ShedOutcome exDeficitGrid (stableShedOrder exDeficitGrid)
      (simulateWith (fun _ => 0) (stableShedOrder exDeficitGrid) [] exDeficitGrid) :=
  c1_deficit_shedding (fun _ => 0) (stableShedOrder exDeficitGrid) [] exDeficitGrid
    (stableShedOrder_valid exDeficitGrid) (by decide)

theorem c2_witness :
    RestoreOutcome exSurplusGrid (stableRestoreOrder exSurplusGrid)
      (simulateWith (fun _ => 0) [] (stableRestoreOrder exSurplusGrid) exSurplusGrid) :=
  c2_surplus_reconnection (fun _ => 0) [] (stableRestoreOrder exSurplusGrid)
    exSurplusGrid (stableRestoreOrder_valid exSurplusGrid) (by decide)

theorem c3_witness :
    InvLB
      (simulateWith (fun _ => 0) (stableShedOrder exDeficitGrid)
        (stableRestoreOrder exDeficitGrid) exDeficitGrid).1.loads
      (simulateWith (fun _ => 0) (stableShedOrder exDeficitGrid)
        (stableRestoreOrder exDeficitGrid) exDeficitGrid).1.breakers :=
  c3_cycle_preserves_invariant (fun _ => 0) (stableShedOrder exDeficitGrid)
    (stableRestoreOrder exDeficitGrid) exDeficitGrid (by decide) (by decide)
    (stableShedOrder_valid exDeficitGrid) (stableRestoreOrder_valid exDeficitGrid)

theorem c4_witness :
    (simulateWith (fun _ => 0) (stableShedOrder exDeficitGrid)
        (stableRestoreOrder exDeficitGrid) exDeficitGrid).2.totalDemand =
      demandOf
        (simulateWith (fun _ => 0) (stableShedOrder exDeficitGrid)
          (stableRestoreOrder exDeficitGrid) exDeficitGrid).1.loads
        (simulateWith (fun _ => 0) (stableShedOrder exDeficitGrid)
          (stableRestoreOrder exDeficitGrid) exDeficitGrid).1.breakers :=
  c4_cycle_conservation (fun _ => 0) (stableShedOrder exDeficitGrid)
    (stableRestoreOrder exDeficitGrid) exDeficitGrid (by decide) (by decide)
    (stableShedOrder_valid exDeficitGrid) (stableRestoreOrder_valid exDeficitGrid)

theorem c5_witness :
    isTrippedB
      (injectManualFault (addLoad initState ⟨"A", 10, true, 5⟩)
        (FaultSel.ld 0)).breakers "A" = true :=
  c5_faults_imply_tripped.1
    (injectManualFault (addLoad initState ⟨"A", 10, true, 5⟩) (FaultSel.ld 0))
    (Reachable.injectStep (FaultSel.ld 0)
      (Reachable.addLoadStep ⟨"A", 10, true, 5⟩ Reachable.init) (by decide))
    "A" (by decide)

theorem c6_witness :
    ∃ name, exFaultGrid.faults[0]? = some name ∧
      resolveManualFault (fun _ => 0) [] [] exFaultGrid 0 =
        (simulateWith (fun _ => 0) [] []
          ⟨exFaultGrid.sources, exFaultGrid.loads,
           setTripped exFaultGrid.breakers name false,
           exFaultGrid.faults.eraseIdx 0⟩).1 ∧
      isTrippedB (setTripped exFaultGrid.breakers name false) name = false ∧
      (∀ m, m ≠ name →
        isTrippedB (setTripped exFaultGrid.breakers name false) m =
          isTrippedB exFaultGrid.breakers m) ∧
      (exFaultGrid.faults.eraseIdx 0).length + 1 = exFaultGrid.faults.length ∧
      (⟨exFaultGrid.sources, exFaultGrid.loads,
        setTripped exFaultGrid.breakers name false,
        exFaultGrid.faults.eraseIdx 0⟩ : GridState).loads = exFaultGrid.loads :=
  c6_resolve_fault (fun _ => 0) [] [] exFaultGrid 0 (by decide)

theorem c7_witness :
    (addLoad initState ⟨"House", 10, true, 1⟩).loads[initState.loads.length]? =
      some ⟨"House", 10, true, 1⟩ :=
  (c7_registration_effects (fun _ => 0) [] [] initState
    ⟨"Hydro", 5, false, true, false⟩ ⟨"House", 10, true, 1⟩).2.2.2.2.2.2.2

theorem c8_witness :
    ∃ l, exDeficitGrid.loads[0]? = some l ∧
      disconnectLoad exDeficitGrid 0 =
        { exDeficitGrid with loads := exDeficitGrid.loads.set 0 (discOf l) } ∧
      reconnectLoad exDeficitGrid 0 =
        { exDeficitGrid with loads := exDeficitGrid.loads.set 0 (connOf l) } ∧
      (disconnectLoad exDeficitGrid 0).breakers = exDeficitGrid.breakers ∧
      (disconnectLoad exDeficitGrid 0).faults = exDeficitGrid.faults ∧
      (disconnectLoad exDeficitGrid 0).sources = exDeficitGrid.sources ∧
      (reconnectLoad exDeficitGrid 0).breakers = exDeficitGrid.breakers ∧
      (reconnectLoad exDeficitGrid 0).faults = exDeficitGrid.faults ∧
      (reconnectLoad exDeficitGrid 0).sources = exDeficitGrid.sources ∧
      (∀ j : Nat, j ≠ 0 →
        (disconnectLoad exDeficitGrid 0).loads[j]? = exDeficitGrid.loads[j]?) ∧
      (∀ j : Nat, j ≠ 0 →
        (reconnectLoad exDeficitGrid 0).loads[j]? = exDeficitGrid.loads[j]?) :=
  c8_manual_toggle_inrange exDeficitGrid 0 (by decide)

theorem c9_witness :
    isTrippedB (simulateWith (fun _ => 0) [] [] exFaultGrid).1.breakers
      "House" = true :=
  c9_cycle_never_resets (fun _ => 0) [] [] exFaultGrid "House" (by decide)

theorem c10_witness :
    (addLoad exFaultGrid ⟨"House", 5, true, 9⟩).breakers = exFaultGrid.breakers ∧
    emplaceBreaker exFaultGrid.breakers
      (Source.name ⟨"House", 7, false, true, false⟩) = exFaultGrid.breakers ∧
    demandOf (addLoad exFaultGrid ⟨"House", 5, true, 9⟩).loads
        (addLoad exFaultGrid ⟨"House", 5, true, 9⟩).breakers =
      demandOf exFaultGrid.loads exFaultGrid.breakers ∧
    totalPowerOf
        (resampleSources (fun _ => 0) exFaultGrid.breakers
          (exFaultGrid.sources ++ [⟨"House", 7, false, true, false⟩]))
        exFaultGrid.breakers =
      totalPowerOf (resampleSources (fun _ => 0) exFaultGrid.breakers
          exFaultGrid.sources) exFaultGrid.breakers :=
  c10_collision_keeps_breaker (fun _ => 0) exFaultGrid
    ⟨"House", 7, false, true, false⟩ ⟨"House", 5, true, 9⟩ (by decide) (by decide)

/-- C1 counterexample: the code sorts the shedding candidates with
`std::sort`, whose contract leaves the order of equal-priority candidates
unspecified; `[1, 0]` is as admissible an outcome as the stable `[0, 1]` the
claim prescribes, and walking it sheds the later-registered load `B` while
the earlier-registered equal-priority load `A` stays connected — observably
different final states, so the claimed stable tie-break is not a property of
the code. -/
theorem c1_counterexample :
    ValidShedOrder c1CexGrid [1, 0] ∧
    stableShedOrder c1CexGrid = [0, 1] ∧
    (simulateWith (fun _ => 0) [1, 0] [] c1CexGrid).1.loads ≠
      (simulateWith (fun _ => 0) [0, 1] [] c1CexGrid).1.loads ∧
    ((simulateWith (fun _ => 0) [1, 0] [] c1CexGrid).1.loads[0]?.map
      Load.connected) = some true ∧
    ((simulateWith (fun _ => 0) [1, 0] [] c1CexGrid).1.loads[1]?.map
      Load.connected) = some false := by
  decide

/-- C3 counterexample: from the reachable state where load `A` is connected
with a tripped breaker, the surplus branch of the cycle leaves it untouched,
so after the cycle a load is both connected and breaker-tripped and the
claimed invariant fails. -/
theorem c3_counterexample :
    Reachable c3CexGrid ∧
    ((runCycle (fun _ => 0) c3CexGrid).1.loads[0]?.map Load.connected) = some true ∧
    isTrippedB (runCycle (fun _ => 0) c3CexGrid).1.breakers "A" = true ∧
    ¬ InvLB (runCycle (fun _ => 0) c3CexGrid).1.loads
      (runCycle (fun _ => 0) c3CexGrid).1.breakers :=
  ⟨Reachable.injectStep (FaultSel.ld 0)
    (Reachable.addLoadStep ⟨"A", 10, true, 5⟩
      (Reachable.addSourceStep (fun _ => 0) [] []
        ⟨"S", 20, false, true, false⟩ Reachable.init))
    (by decide), by decide, by decide, by decide⟩

/-- C4 counterexample: running the cycle from the reachable state above
reports `totalDemand = -10` while the sum of demands over the loads that are
breaker-untripped and connected afterwards is `0` — conservation fails from
states violating the no-contradictory-state invariant. -/
theorem c4_counterexample :
    Reachable c4CexGrid ∧
    (runCycle (fun _ => 0) c4CexGrid).2.totalDemand = -10 ∧
    demandOf (runCycle (fun _ => 0) c4CexGrid).1.loads
      (runCycle (fun _ => 0) c4CexGrid).1.breakers = 0 ∧
    (runCycle (fun _ => 0) c4CexGrid).2.totalDemand ≠
      demandOf (runCycle (fun _ => 0) c4CexGrid).1.loads
        (runCycle (fun _ => 0) c4CexGrid).1.breakers :=
  ⟨Reachable.injectStep (FaultSel.ld 0)
    (Reachable.addLoadStep ⟨"B", 20, true, 1⟩
      (Reachable.addLoadStep ⟨"A", 10, true, 9⟩
        (Reachable.addSourceStep (fun _ => 0) [] []
          ⟨"S", 5, false, true, false⟩ Reachable.init)))
    (by decide), by decide, by decide, by decide⟩

end SmartGrid
